import Mathlib

/-!
Access checking in `go/vt/accesschecker`.

A shallow embedding of the composite checker registry
(`go/vt/accesschecker/accesschecker.go`) and of the table access checker
(`go/vt/accesschecker/tableaccesschecker/role.go`, `plugin_default.go`),
followed by theorems about them.

Conventions of the embedding.

* Go strings are Lean strings (the strings the code handles come out of the
  JSON decoder or are literals, hence valid UTF-8).
* A Go `error` is a `GoError`: `nil` or an error with its `Error()` text.
* A Go map is an association list with distinct keys, listed in the order in
  which a `range` loop yields it.  Go leaves that order unspecified, so a
  statement about "every iteration order" quantifies over the lists.
* A function that can hit a run-time panic (index out of range, assignment to
  an entry of a nil map) returns an `Option`, `none` being the panic.
* Standard-library behaviour the code relies on and that is not part of the
  repository (`regexp`, the non-ASCII part of `unicode.ToUpper`) is a
  parameter, `Stdlib`.
-/

namespace Vitess

/-! ## Go values -/

/-- A Go `error` value: `nil`, or a non-nil error whose `Error()` text is `text`. -/
inductive GoError where
  | nil : GoError
  | mk (text : String) : GoError
  deriving DecidableEq, Repr

/-- A Go `map[string]V` as the list of its entries in the order a `range` loop
yields them. -/
abbrev GoMap (V : Type) := List (String × V)

namespace GoMap

/-- The two-result index expression `v, ok := m[k]`: `none` when `ok` is false. -/
def lookup {V : Type} : GoMap V → String → Option V
  | [], _ => none
  | (k', v) :: rest, k => if k' = k then some v else lookup rest k

/-- The assignment `m[k] = v`: an existing entry is overwritten where it stands,
a new key gets a new entry. -/
def insert {V : Type} : GoMap V → String → V → GoMap V
  | [], k, v => [(k, v)]
  | (k', v') :: rest, k, v =>
    if k' = k then (k', v) :: rest else (k', v') :: insert rest k v

/-- The keys of the map, in iteration order. -/
def keys {V : Type} (m : GoMap V) : List String := m.map Prod.fst

/-- A Go map holds each key once. -/
def WF {V : Type} (m : GoMap V) : Prop := (keys m).Nodup

end GoMap

/-- Go's index expression `xs[i]` on a slice: a run-time panic (`none`) when the
index is negative or not below the length. -/
def index {α : Type} (xs : List α) (i : Int) : Option α :=
  if i < 0 then none else xs.get? i.toNat

/-- The part of the Go standard library the code calls and the repository does
not define. -/
structure Stdlib where
  /-- Result of `unicode.ToUpper` on a rune above `unicode.MaxASCII`. -/
  unicodeUpper : Char → Char
  /-- Error of `regexp.Compile(pattern)`: `none` when the pattern compiles,
  otherwise the text of the parse error. -/
  CompileErr : String → Option String
  /-- Result of `re.MatchString(s)` for the regular expression compiled from a
  pattern that compiles. -/
  Matches : String → String → Bool

/-- Go's `unicode.ToUpper`: ASCII letters are shifted by `'a' - 'A'`, other
ASCII runes are unchanged, runes above ASCII go through the case tables. -/
def toUpperRune (lib : Stdlib) (c : Char) : Char :=
  if c.toNat ≤ 127 then
    if 97 ≤ c.toNat ∧ c.toNat ≤ 122 then Char.ofNat (c.toNat - 32) else c
  else lib.unicodeUpper c

/-- Go's `strings.ToUpper`: `unicode.ToUpper` mapped over the runes. -/
def ToUpper (lib : Stdlib) (s : String) : String :=
  String.mk (s.data.map (toUpperRune lib))

/-- Go's `regexp.MatchString(pattern, s)`: the pattern is compiled first, and a
pattern that does not compile gives `(false, err)`. -/
def MatchString (lib : Stdlib) (pattern s : String) : Bool × GoError :=
  match lib.CompileErr pattern with
  | some e => (false, GoError.mk e)
  | none => (lib.Matches pattern s, GoError.nil)

/-- Pieces of a rune list between the occurrences of the separator rune. -/
def splitRunes (sep : Char) : List Char → List (List Char)
  | [] => [[]]
  | c :: cs =>
    if c = sep then [] :: splitRunes sep cs
    else
      match splitRunes sep cs with
      | [] => [[c]]
      | w :: ws => (c :: w) :: ws

/-- Go's `strings.Split(s, sep)` for a separator of one rune: the substrings
between the separators, one more than there are separators. -/
def Split (s : String) (sep : Char) : List String :=
  (splitRunes sep s.data).map String.mk

/-! ## Collaborators: `context.Context` and `sqlparser.ExecPlan` -/

/-- Modelled from the spec: `sqlparser.PlanType` is declared outside the
repository's files.  It is an integer tag; the eleven named tags that
`roleByPlanType` mentions are constructors, and `other n` stands for any other
tag value the planner type can hold. -/
inductive PlanType where
  | PLAN_PASS_SELECT
  | PLAN_PK_EQUAL
  | PLAN_PK_IN
  | PLAN_SELECT_SUBQUERY
  | PLAN_SET
  | PLAN_PASS_DML
  | PLAN_DML_PK
  | PLAN_DML_SUBQUERY
  | PLAN_INSERT_PK
  | PLAN_INSERT_SUBQUERY
  | PLAN_DDL
  | other (tag : Int)
  deriving DecidableEq, Repr

/-- The fields of `sqlparser.ExecPlan` the checkers read. -/
structure ExecPlan where
  PlanId : PlanType
  TableName : String
  deriving DecidableEq, Repr

/-- A `context.Context`, as far as the checkers use it: the principal that
`GetUsername()` returns. -/
structure Context where
  GetUsername : String
  deriving DecidableEq, Repr

/-! ## Package `accesschecker`: the registry -/

namespace accesschecker

/-- The `AccessChecker` interface as the registry uses it: the verdict of
`Allow(context, plan)`.  (`Load` is never called by the registry.) -/
structure AccessChecker where
  Allow : Context → ExecPlan → GoError

/-- `Register`: `accesscheckers = append(accesscheckers, ac)`, on the
package-level slice passed explicitly. -/
def Register (accesscheckers : List AccessChecker) (ac : AccessChecker) :
    List AccessChecker :=
  accesscheckers ++ [ac]

/-- `Allow`: ranges over the registered checkers and returns the first non-nil
error, `nil` when the loop ends. -/
def Allow (accesscheckers : List AccessChecker) (context : Context) (plan : ExecPlan) :
    GoError :=
  match accesscheckers with
  | [] => GoError.nil
  | ac :: rest =>
    match ac.Allow context plan with
    | GoError.nil => Allow rest context plan
    | GoError.mk text => GoError.mk text

/-- The registry after registering `cs` in order, starting from the empty
registry. -/
def registerAll (cs : List AccessChecker) : List AccessChecker :=
  cs.foldl Register []

end accesschecker

/-! ## Package `tableaccesschecker`: roles (`role.go`) -/

namespace tableaccesschecker

/-- `type Role int`. -/
abbrev Role := Int

def READER : Role := 0
def WRITER : Role := 1
def ADMIN : Role := 2
def NumRoles : Role := 3

def roleNames : List String := ["READER", "WRITER", "ADMIN"]

/-- `Role.Name`: `none` is the index-out-of-range panic of `roleNames[r]`. -/
def Name (r : Role) : Option String :=
  if r < READER ∨ r > ADMIN then some "" else index roleNames r

/-- The loop of `RoleByName` over `roleNames[i..]`. -/
def roleByNameFrom (upper : String) : Nat → List String → Role × Bool
  | _, [] => (NumRoles, false)
  | i, v :: rest => if v = upper then ((i : Int), true) else roleByNameFrom upper (i + 1) rest

/-- `RoleByName`: the position of `strings.ToUpper(s)` in `roleNames`. -/
def RoleByName (lib : Stdlib) (s : String) : Role × Bool :=
  roleByNameFrom (ToUpper lib s) 0 roleNames

open PlanType in
/-- The map literal `roleByPlanType`. -/
def roleByPlanType : List (PlanType × Role) :=
  [ (PLAN_PASS_SELECT, READER),
    (PLAN_PK_EQUAL, READER),
    (PLAN_PK_IN, READER),
    (PLAN_SELECT_SUBQUERY, READER),
    (PLAN_SET, READER),
    (PLAN_PASS_DML, WRITER),
    (PLAN_DML_PK, WRITER),
    (PLAN_DML_SUBQUERY, WRITER),
    (PLAN_INSERT_PK, WRITER),
    (PLAN_INSERT_SUBQUERY, WRITER),
    (PLAN_DDL, ADMIN) ]

/-- `RoleByPlanType`: the index expression `roleByPlanType[planType]`, which
yields the zero value of `Role` for a key the map does not hold. -/
def RoleByPlanType (planType : PlanType) : Role :=
  match roleByPlanType.lookup planType with
  | some r => r
  | none => 0

/-! ## Package `tableaccesschecker`: the policy store (`plugin_default.go`) -/

/-- The field `tableAccessChecker.acl`: table pattern, then principal, then role. -/
abbrev ACL := GoMap (GoMap Role)

/-- The value `json.Unmarshal` decodes into `contents`: table pattern, then role
name, then the comma-separated principals. -/
abbrev Contents := GoMap (GoMap String)

/-- The statement `ac.acl[tablePattern][u] = r`; `none` is the panic of an
assignment to an entry of the nil map that `ac.acl[tablePattern]` yields for a
missing key. -/
def setGrant (acl : ACL) (tablePattern u : String) (r : Role) : Option ACL :=
  match GoMap.lookup acl tablePattern with
  | none => none
  | some accessMap => some (GoMap.insert acl tablePattern (GoMap.insert accessMap u r))

/-- The innermost loop of `Load`, over the items of `strings.Split(usersStr, ",")`. -/
def loadUsers (tablePattern : String) (r : Role) : ACL → List String → Option ACL
  | acl, [] => some acl
  | acl, u :: us =>
    match setGrant acl tablePattern u r with
    | none => none
    | some acl1 => loadUsers tablePattern r acl1 us

/-- The loop of `Load` over `accessMap`: the policy when the loop stops, and
the error `Load` then returns (`nil` when the loop ran to its end). -/
def loadRoles (lib : Stdlib) (tablePattern : String) :
    ACL → List (String × String) → Option (ACL × GoError)
  | acl, [] => some (acl, GoError.nil)
  | acl, (role, usersStr) :: rest =>
    match RoleByName lib role with
    | (_, false) => some (acl, GoError.mk ("parse error, invalid role " ++ role))
    | (r, true) =>
      match loadUsers tablePattern r acl (Split usersStr ',') with
      | none => none
      | some acl1 => loadRoles lib tablePattern acl1 rest

/-- The statement
`if _, ok := ac.acl[tablePattern]; !ok { ac.acl[tablePattern] = make(map[string]Role) }`. -/
def ensurePattern (acl : ACL) (tablePattern : String) : ACL :=
  match GoMap.lookup acl tablePattern with
  | some _ => acl
  | none => GoMap.insert acl tablePattern []

/-- The loop of `Load` over `contents`. -/
def loadPatterns (lib : Stdlib) : ACL → Contents → Option (ACL × GoError)
  | acl, [] => some (acl, GoError.nil)
  | acl, (tablePattern, accessMap) :: rest =>
    match lib.CompileErr tablePattern with
    | some e =>
      some (acl, GoError.mk ("regexp compile error " ++ tablePattern ++ ": " ++ e))
    | none =>
      match loadRoles lib tablePattern (ensurePattern acl tablePattern) accessMap with
      | none => none
      | some (acl2, GoError.nil) => loadPatterns lib acl2 rest
      | some (acl2, GoError.mk text) => some (acl2, GoError.mk text)

/-- `tableAccessChecker.Load`.  `parsed` is what `json.Unmarshal(config, &contents)`
produced: its error, or the decoded maps in the order the loops range over
them.  The result is the policy after the call and the error returned; `none`
is a run-time panic. -/
def Load (lib : Stdlib) (acl : ACL) (parsed : Except String Contents) :
    Option (ACL × GoError) :=
  match parsed with
  | Except.error e => some (acl, GoError.mk e)
  | Except.ok contents => loadPatterns lib acl contents

/-- The condition `role, ok := accessMap[principal]; ok && role >= minRole`. -/
def grants (accessMap : GoMap Role) (principal : String) (minRole : Role) : Bool :=
  match GoMap.lookup accessMap principal with
  | some role => decide (role ≥ minRole)
  | none => false

/-- The text of the error `Allow` builds with `fmt.Errorf`. -/
def deniedText (user roleName table : String) : String :=
  "user " ++ user ++ " has no " ++ roleName ++ " access on table " ++ table

/-- The loop of `Allow` over `ac.acl`; `none` is a run-time panic. -/
def allowFrom (lib : Stdlib) (context : Context) (plan : ExecPlan) (minRole : Role) :
    ACL → Option GoError
  | [] => some GoError.nil
  | (tablePattern, accessMap) :: rest =>
    if (MatchString lib tablePattern plan.TableName).1 then
      if grants accessMap "*" minRole then some GoError.nil
      else if grants accessMap context.GetUsername minRole then some GoError.nil
      else
        match Name minRole with
        | none => none
        | some roleName =>
          some (GoError.mk (deniedText context.GetUsername roleName plan.TableName))
    else allowFrom lib context plan minRole rest

/-- `tableAccessChecker.Allow` on the policy `acl`, listed in the order the
loop ranges over it. -/
def Allow (lib : Stdlib) (acl : ACL) (context : Context) (plan : ExecPlan) :
    Option GoError :=
  allowFrom lib context plan (RoleByPlanType plan.PlanId) acl

end tableaccesschecker

/-! ## Vocabulary of the statements -/

namespace tableaccesschecker

/-- The role the policy holds for a pattern and a principal, that is
`acl[tablePattern][principal]` with its `ok`. -/
def grantOf (acl : ACL) (tablePattern principal : String) : Option Role :=
  match GoMap.lookup acl tablePattern with
  | none => none
  | some accessMap => GoMap.lookup accessMap principal

/-- The grant map has an entry for `principal` with a role at or above `minRole`. -/
def hasGrant (accessMap : GoMap Role) (principal : String) (minRole : Role) : Prop :=
  ∃ role, GoMap.lookup accessMap principal = some role ∧ role ≥ minRole

/-- The access map of one pattern lists `principal` under a role name that
resolves to `r`: `principal` is one of the comma-separated items of the value
of such a key. -/
def listsUnder (lib : Stdlib) (accessMap : GoMap String) (principal : String) (r : Role) :
    Prop :=
  ∃ e ∈ accessMap, principal ∈ Split e.2 ',' ∧ RoleByName lib e.1 = (r, true)

/-- The access map of one pattern lists `principal` under some key. -/
def lists (accessMap : GoMap String) (principal : String) : Prop :=
  ∃ e ∈ accessMap, principal ∈ Split e.2 ','

/-- The configuration lists `principal` under role `r` for `tablePattern`. -/
def listed (lib : Stdlib) (contents : Contents) (tablePattern principal : String)
    (r : Role) : Prop :=
  ∃ p ∈ contents, p.1 = tablePattern ∧ listsUnder lib p.2 principal r

/-- The role name is one `RoleByName` resolves. -/
def resolves (lib : Stdlib) (role : String) : Prop := (RoleByName lib role).2 = true

/-- An entry of the configuration `Load` processes without an error: its
pattern compiles and each of its role names resolves. -/
def goodEntry (lib : Stdlib) (e : String × GoMap String) : Prop :=
  lib.CompileErr e.1 = none ∧ ∀ f ∈ e.2, resolves lib f.1

/-- No principal is listed under two different roles of the same pattern. -/
def noConflict (lib : Stdlib) (contents : Contents) : Prop :=
  ∀ p ∈ contents, ∀ q ∈ contents, p.1 = q.1 →
    ∀ e ∈ p.2, ∀ f ∈ q.2, ∀ u ∈ Split e.2 ',', u ∈ Split f.2 ',' →
      (RoleByName lib e.1).1 = (RoleByName lib f.1).1

instance (lib : Stdlib) (role : String) : Decidable (resolves lib role) := by
  unfold resolves; infer_instance

instance (lib : Stdlib) (e : String × GoMap String) : Decidable (goodEntry lib e) := by
  unfold goodEntry; infer_instance

instance (lib : Stdlib) (contents : Contents) : Decidable (noConflict lib contents) := by
  unfold noConflict; infer_instance

instance (accessMap : GoMap Role) (principal : String) (minRole : Role) :
    Decidable (hasGrant accessMap principal minRole) :=
  match h : GoMap.lookup accessMap principal with
  | none => isFalse (by simp [hasGrant, h])
  | some role =>
    if hr : role ≥ minRole then isTrue ⟨role, h, hr⟩
    else isFalse (by simp only [hasGrant, h]; rintro ⟨r, hr1, hr2⟩; cases hr1; exact hr hr2)

instance (lib : Stdlib) (accessMap : GoMap String) (principal : String) (r : Role) :
    Decidable (listsUnder lib accessMap principal r) := by
  unfold listsUnder; infer_instance

instance (accessMap : GoMap String) (principal : String) :
    Decidable (lists accessMap principal) := by
  unfold lists; infer_instance

instance (lib : Stdlib) (contents : Contents) (tablePattern principal : String) (r : Role) :
    Decidable (listed lib contents tablePattern principal r) := by
  unfold listed; infer_instance

end tableaccesschecker

/-! ## Vocabulary of the statements: policy states -/

namespace tableaccesschecker

/-- The role is a member of the closed set READER, WRITER, ADMIN. -/
def validRole (r : Role) : Prop := r = READER ∨ r = WRITER ∨ r = ADMIN

/-- The invariant of the policy: every pattern key compiles and every stored
role is READER, WRITER or ADMIN. -/
def policyInv (lib : Stdlib) (acl : ACL) : Prop :=
  ∀ e ∈ acl, lib.CompileErr e.1 = none ∧ ∀ f ∈ e.2, validRole f.2

/-- The policy states reachable from the empty policy of
`&tableAccessChecker{acl: make(map[string]map[string]Role)}` by calls of
`Load`, whatever they are given and whatever error they return. -/
inductive Reachable (lib : Stdlib) : ACL → Prop where
  | empty : Reachable lib []
  | load (S S' : ACL) (parsed : Except String Contents) (err : GoError) :
      Reachable lib S → Load lib S parsed = some (S', err) → Reachable lib S'

/-- The pattern is made of literal characters only: it holds none of the
characters with a special meaning in Go's regular expression syntax. -/
def literalPattern (metas : List Char) (p : String) : Prop := ∀ c ∈ p.data, c ∉ metas

instance (r : Role) : Decidable (validRole r) := by
  unfold validRole; infer_instance

instance (lib : Stdlib) (acl : ACL) : Decidable (policyInv lib acl) := by
  unfold policyInv; infer_instance

instance (metas : List Char) (p : String) : Decidable (literalPattern metas p) := by
  unfold literalPattern; infer_instance

end tableaccesschecker

/-! ## A standard library for concrete instances -/

/-- The characters with a special meaning in Go's regular expression syntax
(those `regexp.QuoteMeta` escapes). -/
def metaRunes : List Char :=
  ['\\', '.', '+', '*', '?', '(', ')', '|', '[', ']', '\x7b', '\x7d', '^', '$']

/-- Whether `p` occurs in `t` as a contiguous piece. -/
def containsRunes (p : List Char) : List Char → Bool
  | [] => p.isEmpty
  | c :: cs => p.isPrefixOf (c :: cs) || containsRunes p cs

/-- A stand-in for the Go standard library on the patterns without any
metacharacter: such a pattern compiles and matches the strings that contain it
(matching is unanchored).  Every other pattern is refused here, as Go refuses
`table(1`; the error text and the case table above ASCII are placeholders.  It
serves the concrete instances only, which use ASCII strings and patterns that
are either free of metacharacters or `table(1`; the general theorems hold for
every `Stdlib`. -/
def literalLib : Stdlib where
  unicodeUpper := fun c => c
  CompileErr := fun p =>
    if p.data.all (fun c => !metaRunes.contains c) then none
    else some "error parsing regexp"
  Matches := fun p s => containsRunes p.data s.data

/-- Modelled from the spec: the regular-expression matcher is Go's `regexp`
package, which the repository calls and does not define, and the spec only says
that a pattern "matches the plan's table name".  This is the documented
behaviour of that package on a pattern without metacharacters: the pattern
compiles, and `MatchString` reports whether the string contains a match, that
is, whether the pattern occurs in the string as a contiguous piece. -/
def literalContract (lib : Stdlib) : Prop :=
  ∀ p t : String, tableaccesschecker.literalPattern metaRunes p →
    lib.CompileErr p = none ∧ (lib.Matches p t = true ↔ p.data <:+: t.data)

end Vitess

/-! ## Theorems: the registry -/

namespace Vitess

namespace accesschecker

theorem foldl_Register (acc cs : List AccessChecker) :
    cs.foldl Register acc = acc ++ cs := by
  induction cs generalizing acc with
  | nil => simp
  | cons c cs ih => simp [List.foldl, ih, Register]

theorem registerAll_eq (cs : List AccessChecker) : registerAll cs = cs := by
  simp [registerAll, foldl_Register]

theorem Allow_eq_nil_iff (cs : List AccessChecker) (context : Context) (plan : ExecPlan) :
    Allow cs context plan = GoError.nil ↔
      ∀ c ∈ cs, c.Allow context plan = GoError.nil := by
  induction cs with
  | nil => simp [Allow]
  | cons c cs ih =>
    rw [Allow]
    cases h : c.Allow context plan with
    | nil => simp [ih, h]
    | mk text => simp [h]

theorem Allow_first_error (cs : List AccessChecker) (context : Context) (plan : ExecPlan)
    (i : Nat) (c : AccessChecker) (hc : cs[i]? = some c)
    (herr : c.Allow context plan ≠ GoError.nil)
    (hbefore : ∀ j d, j < i → cs[j]? = some d → d.Allow context plan = GoError.nil) :
    Allow cs context plan = c.Allow context plan := by
  induction cs generalizing i with
  | nil => simp at hc
  | cons a cs ih =>
    cases i with
    | zero =>
      simp at hc
      subst hc
      rw [Allow]
      cases h : a.Allow context plan with
      | nil => exact absurd h herr
      | mk text => rfl
    | succ i =>
      simp at hc
      have ha : a.Allow context plan = GoError.nil := hbefore 0 a (Nat.succ_pos i) (by simp)
      rw [Allow, ha]
      apply ih i hc
      intro j d hj hd
      exact hbefore (j + 1) d (Nat.succ_lt_succ hj) (by simpa using hd)

/-- C1: the registry's `Allow` is a short-circuit AND in registration order.
With checkers `cs` registered in that order from the empty registry, `Allow`
returns nil exactly when every checker returns nil; when the checker at
position `i` returns a non-nil error and every checker before it returns nil,
`Allow` returns that checker's error; the empty registry allows every request. -/
theorem registry_allow_short_circuit (cs : List AccessChecker) (context : Context)
    (plan : ExecPlan) :
    (Allow (registerAll cs) context plan = GoError.nil ↔
      ∀ c ∈ cs, c.Allow context plan = GoError.nil) ∧
    (∀ (i : Nat) (c : AccessChecker), cs[i]? = some c →
      c.Allow context plan ≠ GoError.nil →
      (∀ j d, j < i → cs[j]? = some d → d.Allow context plan = GoError.nil) →
      Allow (registerAll cs) context plan = c.Allow context plan) ∧
    Allow (registerAll []) context plan = GoError.nil := by
  refine ⟨?_, ?_, ?_⟩
  · rw [registerAll_eq]
    exact Allow_eq_nil_iff cs context plan
  · intro i c hc herr hbefore
    rw [registerAll_eq]
    exact Allow_first_error cs context plan i c hc herr hbefore
  · rfl

/-- Instance of C1: of three registered checkers the first allows and the
second and third deny with different errors; the registry returns the second
checker's error. -/
theorem registry_allow_short_circuit_witness :
    Allow (registerAll [⟨fun _ _ => GoError.nil⟩, ⟨fun _ _ => GoError.mk "second"⟩,
        ⟨fun _ _ => GoError.mk "third"⟩]) ⟨"user1"⟩ ⟨PlanType.PLAN_DDL, "table1"⟩
      = GoError.mk "second" :=
  ((registry_allow_short_circuit [⟨fun _ _ => GoError.nil⟩, ⟨fun _ _ => GoError.mk "second"⟩,
        ⟨fun _ _ => GoError.mk "third"⟩] ⟨"user1"⟩ ⟨PlanType.PLAN_DDL, "table1"⟩).2.1
      1 ⟨fun _ _ => GoError.mk "second"⟩ rfl (by simp)
      (by
        intro j d hj hd
        have hj0 : j = 0 := by omega
        subst hj0
        simp at hd
        subst hd
        rfl))

end accesschecker

end Vitess

/-! ## Theorems: roles -/

namespace Vitess

namespace tableaccesschecker

theorem Name_eq (r : Int) :
    Name r = some (if r = 0 then "READER" else if r = 1 then "WRITER"
      else if r = 2 then "ADMIN" else "") := by
  unfold Name
  by_cases h : r < READER ∨ r > ADMIN
  · rw [if_pos h]
    simp only [Role, READER, ADMIN] at *
    have h0 : r ≠ 0 := by omega
    have h1 : r ≠ 1 := by omega
    have h2 : r ≠ 2 := by omega
    simp [h0, h1, h2]
  · rw [if_neg h]
    simp only [Role, READER, ADMIN] at *
    have h3 : (r : Int) = 0 ∨ (r : Int) = 1 ∨ (r : Int) = 2 := by omega
    rcases h3 with h3 | h3 | h3 <;> subst h3 <;> rfl

theorem RoleByName_eq (lib : Stdlib) (s : String) :
    RoleByName lib s =
      if ToUpper lib s = "READER" then (READER, true)
      else if ToUpper lib s = "WRITER" then (WRITER, true)
      else if ToUpper lib s = "ADMIN" then (ADMIN, true)
      else (NumRoles, false) := by
  unfold RoleByName roleNames
  simp only [roleByNameFrom]
  by_cases h1 : ToUpper lib s = "READER"
  · simp [h1, READER]
  · by_cases h2 : ToUpper lib s = "WRITER"
    · simp [h2, WRITER]
    · by_cases h3 : ToUpper lib s = "ADMIN"
      · simp [h3, ADMIN]
      · simp [h1, h2, h3, Ne.symm h1, Ne.symm h2, Ne.symm h3]

/-- C9: role-name resolution is case-insensitive and exact.  `RoleByName s`
succeeds exactly when the upper-cased `s` is "READER", "WRITER" or "ADMIN", the
role returned is then the one with that name (READER = 0, WRITER = 1,
ADMIN = 2), and every other string gives `(NumRoles, false)`; names written in
lower or mixed case resolve like the upper-case ones. -/
theorem roleByName_exact (lib : Stdlib) (s : String) :
    ((RoleByName lib s).2 = true ↔
      ToUpper lib s = "READER" ∨ ToUpper lib s = "WRITER" ∨ ToUpper lib s = "ADMIN") ∧
    (ToUpper lib s = "READER" → RoleByName lib s = (READER, true)) ∧
    (ToUpper lib s = "WRITER" → RoleByName lib s = (WRITER, true)) ∧
    (ToUpper lib s = "ADMIN" → RoleByName lib s = (ADMIN, true)) ∧
    (¬ (ToUpper lib s = "READER" ∨ ToUpper lib s = "WRITER" ∨ ToUpper lib s = "ADMIN") →
      RoleByName lib s = (NumRoles, false)) ∧
    (READER = 0 ∧ WRITER = 1 ∧ ADMIN = 2 ∧ NumRoles = 3) ∧
    (RoleByName lib "reader" = (READER, true) ∧ RoleByName lib "Writer" = (WRITER, true) ∧
      RoleByName lib "aDmIn" = (ADMIN, true)) := by
  rw [RoleByName_eq]
  refine ⟨?_, ?_, ?_, ?_, ?_, ⟨rfl, rfl, rfl, rfl⟩, ⟨rfl, rfl, rfl⟩⟩
  · by_cases h1 : ToUpper lib s = "READER"
    · simp [h1]
    · by_cases h2 : ToUpper lib s = "WRITER"
      · simp [h2]
      · by_cases h3 : ToUpper lib s = "ADMIN"
        · simp [h3]
        · simp [h1, h2, h3]
  · intro h; simp [h]
  · intro h; simp [h]
  · intro h; simp [h]
  · intro h
    push_neg at h
    simp [h.1, h.2.1, h.2.2]

/-- Instance of C9 at the role key "Reader" of the repository's tests and at the
unknown role "SOMEROLE". -/
theorem roleByName_exact_witness :
    RoleByName literalLib "Reader" = (READER, true) ∧
    RoleByName literalLib "SOMEROLE" = (NumRoles, false) :=
  ⟨(roleByName_exact literalLib "Reader").2.1 (by decide),
   (roleByName_exact literalLib "SOMEROLE").2.2.2.2.1 (by decide)⟩

/-- C10: `Role.Name` is total and safe.  For every integer role value it
returns a string and never hits the index-out-of-range panic: the canonical
name for READER, WRITER and ADMIN, which are all the values from READER to
ADMIN, and the empty string for every value below READER or above ADMIN; the
index used on `roleNames` is within its bounds. -/
theorem name_total_safe (r : Role) :
    Name r ≠ none ∧
    (r = READER → Name r = some "READER") ∧
    (r = WRITER → Name r = some "WRITER") ∧
    (r = ADMIN → Name r = some "ADMIN") ∧
    (READER ≤ r ∧ r ≤ ADMIN → r = READER ∨ r = WRITER ∨ r = ADMIN) ∧
    (r < READER ∨ r > ADMIN → Name r = some "") ∧
    (¬ (r < READER ∨ r > ADMIN) → 0 ≤ r ∧ r.toNat < roleNames.length ∧
      Name r = roleNames.get? r.toNat) := by
  refine ⟨?_, ?_, ?_, ?_, ?_, ?_, ?_⟩
  · rw [Name_eq]; simp
  · intro h; subst h; rfl
  · intro h; subst h; rfl
  · intro h; subst h; rfl
  · simp only [Role, READER, WRITER, ADMIN]; omega
  · intro h; unfold Name; rw [if_pos h]
  · intro h
    have h0 : (0 : Int) ≤ r := by simp only [Role, READER, ADMIN] at *; omega
    refine ⟨h0, ?_, ?_⟩
    · simp only [Role, READER, ADMIN, roleNames, List.length] at *; omega
    · unfold Name index
      rw [if_neg h, if_neg (by simp only [Role] at *; omega)]

/-- Instance of C10 at `NumRoles`, the value `RoleByName` returns on failure,
and at a negative value. -/
theorem name_total_safe_witness :
    Name NumRoles = some "" ∧ Name (-1) = some "" :=
  ⟨(name_total_safe NumRoles).2.2.2.2.2.1 (Or.inr (by decide)),
   (name_total_safe (-1)).2.2.2.2.2.1 (Or.inl (by decide))⟩

end tableaccesschecker

end Vitess

/-! ## Theorems: the verdict of the table access checker -/

namespace Vitess

namespace tableaccesschecker

theorem grants_iff (accessMap : GoMap Role) (principal : String) (minRole : Role) :
    grants accessMap principal minRole = true ↔ hasGrant accessMap principal minRole := by
  unfold grants hasGrant
  cases h : GoMap.lookup accessMap principal with
  | none => simp
  | some role => simp

theorem allowFrom_skip (lib : Stdlib) (context : Context) (plan : ExecPlan) (minRole : Role)
    (before rest : ACL)
    (hbefore : ∀ e ∈ before, (MatchString lib e.1 plan.TableName).1 = false) :
    allowFrom lib context plan minRole (before ++ rest) =
      allowFrom lib context plan minRole rest := by
  induction before with
  | nil => rfl
  | cons e before ih =>
    obtain ⟨p, m⟩ := e
    have hp : (MatchString lib p plan.TableName).1 = false :=
      hbefore (p, m) (List.mem_cons_self _ _)
    have hrest : ∀ e ∈ before, (MatchString lib e.1 plan.TableName).1 = false :=
      fun e he => hbefore e (List.mem_cons_of_mem _ he)
    simp only [List.cons_append, allowFrom, hp]
    simpa using ih hrest

theorem allowFrom_matched (lib : Stdlib) (context : Context) (plan : ExecPlan)
    (minRole : Role) (P : String) (accessMap : GoMap Role) (rest : ACL)
    (hP : (MatchString lib P plan.TableName).1 = true) :
    allowFrom lib context plan minRole ((P, accessMap) :: rest) =
      if hasGrant accessMap "*" minRole ∨ hasGrant accessMap context.GetUsername minRole
      then some GoError.nil
      else (Name minRole).map
        (fun roleName => GoError.mk (deniedText context.GetUsername roleName plan.TableName)) := by
  simp only [allowFrom, hP, if_true]
  by_cases h1 : hasGrant accessMap "*" minRole
  · simp [(grants_iff _ _ _).mpr h1, h1]
  · have g1 : grants accessMap "*" minRole = false := by
      rw [← Bool.not_eq_true, grants_iff]; exact h1
    by_cases h2 : hasGrant accessMap context.GetUsername minRole
    · simp [g1, (grants_iff _ _ _).mpr h2, h2]
    · have g2 : grants accessMap context.GetUsername minRole = false := by
        rw [← Bool.not_eq_true, grants_iff]; exact h2
      simp only [g1, g2, h1, h2, or_self, if_false, Bool.false_eq_true]
      cases Name minRole <;> rfl

/-- C2: the verdict of `tableAccessChecker.Allow` on a matched table.  Let
`(P, accessMap)` be the first entry of the policy, in the order the loop ranges
over it, whose pattern matches `plan.TableName`, and `R` the role
`RoleByPlanType plan.PlanId`.  `Allow` returns nil exactly when `accessMap`
has an entry for "*" with a role at or above `R` or an entry for the very
string of the principal with a role at or above `R`; otherwise it returns the
error with the text "user <principal> has no <R.Name()> access on table
<TableName>". -/
theorem allow_matched_verdict (lib : Stdlib) (before after : ACL) (P : String)
    (accessMap : GoMap Role) (context : Context) (plan : ExecPlan)
    (hbefore : ∀ e ∈ before, (MatchString lib e.1 plan.TableName).1 = false)
    (hP : (MatchString lib P plan.TableName).1 = true) :
    (Allow lib (before ++ (P, accessMap) :: after) context plan = some GoError.nil ↔
      hasGrant accessMap "*" (RoleByPlanType plan.PlanId) ∨
      hasGrant accessMap context.GetUsername (RoleByPlanType plan.PlanId)) ∧
    (¬ (hasGrant accessMap "*" (RoleByPlanType plan.PlanId) ∨
        hasGrant accessMap context.GetUsername (RoleByPlanType plan.PlanId)) →
      ∃ roleName, Name (RoleByPlanType plan.PlanId) = some roleName ∧
        Allow lib (before ++ (P, accessMap) :: after) context plan =
          some (GoError.mk ("user " ++ context.GetUsername ++ " has no " ++ roleName ++
            " access on table " ++ plan.TableName))) := by
  unfold Allow
  rw [allowFrom_skip lib context plan _ before _ hbefore,
    allowFrom_matched lib context plan _ P accessMap after hP]
  constructor
  · constructor
    · intro h
      by_contra hn
      rw [if_neg hn, Name_eq] at h
      simp at h
    · intro h
      rw [if_pos h]
  · intro hn
    refine ⟨_, Name_eq _, ?_⟩
    rw [if_neg hn, Name_eq]
    rfl

/-- Instance of C2: the pattern "tbl" does not match "table1", "table1" is the
first pattern that does, and its grant map gives "user1" the role READER, so
a PLAN_PK_IN by "user1" is allowed. -/
theorem allow_matched_verdict_witness :
    Allow literalLib
      ([("tbl", [("*", ADMIN)])] ++ ("table1", [("user1", READER)]) :: [("table", [])])
      ⟨"user1"⟩ ⟨PlanType.PLAN_PK_IN, "table1"⟩ = some GoError.nil :=
  (allow_matched_verdict literalLib [("tbl", [("*", ADMIN)])] [("table", [])] "table1"
    [("user1", READER)] ⟨"user1"⟩ ⟨PlanType.PLAN_PK_IN, "table1"⟩
    (by decide) (by decide)).1.mpr (Or.inr (by decide))

/-- C3: fail-open default.  When no pattern of the policy matches
`plan.TableName`, `Allow` returns nil, for every principal and every plan
classification. -/
theorem allow_unmatched_table (lib : Stdlib) (acl : ACL) (context : Context)
    (plan : ExecPlan)
    (hnone : ∀ e ∈ acl, (MatchString lib e.1 plan.TableName).1 = false) :
    Allow lib acl context plan = some GoError.nil := by
  have h := allowFrom_skip lib context plan (RoleByPlanType plan.PlanId) acl [] hnone
  rw [List.append_nil] at h
  unfold Allow
  rw [h]
  rfl

/-- Instance of C3, after the repository's test `TestAllowUnmatchedTable`: a
PLAN_DDL on "UNMATCHED_TABLE" under a policy whose only pattern is "table1". -/
theorem allow_unmatched_table_witness :
    Allow literalLib [("table1", [("user1", READER), ("user3", WRITER)])]
      ⟨"user1"⟩ ⟨PlanType.PLAN_DDL, "UNMATCHED_TABLE"⟩ = some GoError.nil :=
  allow_unmatched_table literalLib [("table1", [("user1", READER), ("user3", WRITER)])]
    ⟨"user1"⟩ ⟨PlanType.PLAN_DDL, "UNMATCHED_TABLE"⟩ (by decide)

end tableaccesschecker

end Vitess

/-! ## Lemmas: Go maps and the loops of `Load` -/

namespace Vitess

namespace GoMap

theorem lookup_insert {V : Type} (m : GoMap V) (k k' : String) (v : V) :
    lookup (insert m k v) k' = if k = k' then some v else lookup m k' := by
  induction m with
  | nil => simp [insert, lookup]
  | cons e m ih =>
    obtain ⟨k0, v0⟩ := e
    by_cases h0 : k0 = k
    · subst h0
      by_cases h1 : k0 = k'
      · simp [insert, lookup, h1]
      · simp [insert, lookup, h1]
    · by_cases h1 : k0 = k'
      · subst h1
        have h2 : ¬ k = k0 := fun h => h0 h.symm
        simp [insert, lookup, h0, h2]
      · simp [insert, lookup, h0, h1, ih]

theorem lookup_insert_self {V : Type} (m : GoMap V) (k : String) (v : V) :
    lookup (insert m k v) k = some v := by
  simp [lookup_insert]

theorem lookup_insert_ne {V : Type} (m : GoMap V) (k k' : String) (v : V) (h : k' ≠ k) :
    lookup (insert m k v) k' = lookup m k' := by
  rw [lookup_insert, if_neg (fun h' => h h'.symm)]

theorem lookup_eq_none_of_not_mem {V : Type} (m : GoMap V) (k : String)
    (h : k ∉ keys m) : lookup m k = none := by
  induction m with
  | nil => rfl
  | cons e m ih =>
    obtain ⟨k0, v0⟩ := e
    simp only [keys, List.map_cons, List.mem_cons, not_or] at h
    have h0 : ¬ k0 = k := fun h' => h.1 h'.symm
    simp only [lookup, h0, if_false]
    exact ih h.2

end GoMap

namespace tableaccesschecker

theorem first_failing {α : Type} (p : α → Prop) [DecidablePred p] (l : List α) :
    (∀ x ∈ l, p x) ∨
    ∃ l1 x l2, l = l1 ++ x :: l2 ∧ (∀ y ∈ l1, p y) ∧ ¬ p x := by
  induction l with
  | nil => left; simp
  | cons a l ih =>
    by_cases ha : p a
    · rcases ih with h | ⟨l1, x, l2, hl, h1, hx⟩
      · left
        intro x hx
        rcases List.mem_cons.mp hx with rfl | hx
        · exact ha
        · exact h x hx
      · right
        refine ⟨a :: l1, x, l2, by simp [hl], ?_, hx⟩
        intro y hy
        rcases List.mem_cons.mp hy with rfl | hy
        · exact ha
        · exact h1 y hy
    · right
      exact ⟨[], a, l, rfl, by simp, ha⟩

theorem loadUsers_spec (tablePattern : String) (r : Role) (us : List String) (acl : ACL)
    (g : GoMap Role) (h : GoMap.lookup acl tablePattern = some g) :
    ∃ acl' g', loadUsers tablePattern r acl us = some acl' ∧
      GoMap.lookup acl' tablePattern = some g' ∧
      (∀ u, GoMap.lookup g' u = if u ∈ us then some r else GoMap.lookup g u) ∧
      (∀ P, P ≠ tablePattern → GoMap.lookup acl' P = GoMap.lookup acl P) := by
  induction us generalizing acl g with
  | nil => exact ⟨acl, g, rfl, h, by simp, fun _ _ => rfl⟩
  | cons u us ih =>
    have h1 : GoMap.lookup (GoMap.insert acl tablePattern (GoMap.insert g u r)) tablePattern
        = some (GoMap.insert g u r) := GoMap.lookup_insert_self _ _ _
    obtain ⟨acl', g', hl, hg, hu, hothers⟩ := ih _ _ h1
    refine ⟨acl', g', ?_, hg, ?_, ?_⟩
    · simp only [loadUsers, setGrant, h]
      exact hl
    · intro x
      rw [hu x, GoMap.lookup_insert]
      by_cases hx : x ∈ us
      · simp [hx]
      · by_cases hxu : u = x
        · subst hxu; simp
        · have hxu2 : ¬ x = u := fun h' => hxu h'.symm
          simp [hx, hxu, hxu2]
    · intro P hP
      rw [hothers P hP, GoMap.lookup_insert_ne _ _ _ _ hP]

theorem loadRoles_ok (lib : Stdlib) (tablePattern : String) (am : GoMap String)
    (acl : ACL) (g : GoMap Role) (h : GoMap.lookup acl tablePattern = some g)
    (hres : ∀ f ∈ am, resolves lib f.1) :
    ∃ acl' g', loadRoles lib tablePattern acl am = some (acl', GoError.nil) ∧
      GoMap.lookup acl' tablePattern = some g' ∧
      (∀ P, P ≠ tablePattern → GoMap.lookup acl' P = GoMap.lookup acl P) ∧
      (∀ u, (∃ r, listsUnder lib am u r ∧ GoMap.lookup g' u = some r) ∨
        (¬ lists am u ∧ GoMap.lookup g' u = GoMap.lookup g u)) := by
  induction am generalizing acl g with
  | nil =>
    refine ⟨acl, g, rfl, h, fun _ _ => rfl, fun u => Or.inr ⟨?_, rfl⟩⟩
    simp [lists]
  | cons e am ih =>
    obtain ⟨role, usersStr⟩ := e
    have hrole : resolves lib role := hres (role, usersStr) (List.mem_cons_self _ _)
    have hrest : ∀ f ∈ am, resolves lib f.1 := fun f hf => hres f (List.mem_cons_of_mem _ hf)
    obtain ⟨acl1, g1, hl1, hg1, hu1, ho1⟩ :=
      loadUsers_spec tablePattern (RoleByName lib role).1 (Split usersStr ',') acl g h
    obtain ⟨acl', g', hl, hg, ho, hu⟩ := ih acl1 g1 hg1 hrest
    have hpair : RoleByName lib role = ((RoleByName lib role).1, true) := by
      unfold resolves at hrole
      rw [← hrole]
    refine ⟨acl', g', ?_, hg, ?_, ?_⟩
    · rw [loadRoles]
      split
      · rename_i hf
        rw [hpair] at hf
        simp at hf
      · rename_i r hf
        rw [hpair] at hf
        have hr : (RoleByName lib role).1 = r := by
          have := congrArg Prod.fst hf
          simpa using this
        rw [← hr, hl1]
        exact hl
    · intro P hP
      rw [ho P hP, ho1 P hP]
    · intro u
      rcases hu u with ⟨r, hlr, hr⟩ | ⟨hnl, hr⟩
      · left
        obtain ⟨f, hf, hfu, hfr⟩ := hlr
        exact ⟨r, ⟨f, List.mem_cons_of_mem _ hf, hfu, hfr⟩, hr⟩
      · rw [hu1 u] at hr
        by_cases hmem : u ∈ Split usersStr ','
        · left
          rw [if_pos hmem] at hr
          exact ⟨_, ⟨(role, usersStr), List.mem_cons_self _ _, hmem, hpair⟩, hr⟩
        · right
          rw [if_neg hmem] at hr
          refine ⟨?_, hr⟩
          rintro ⟨f, hf, hfu⟩
          rcases List.mem_cons.mp hf with rfl | hf
          · exact hmem hfu
          · exact hnl ⟨f, hf, hfu⟩

theorem loadRoles_fail (lib : Stdlib) (tablePattern : String)
    (am1 : GoMap String) (role usersStr : String) (am2 : GoMap String)
    (acl : ACL) (g : GoMap Role) (h : GoMap.lookup acl tablePattern = some g)
    (hres : ∀ f ∈ am1, resolves lib f.1) (hbad : ¬ resolves lib role) :
    ∃ acl' g', loadRoles lib tablePattern acl (am1 ++ (role, usersStr) :: am2) =
        some (acl', GoError.mk ("parse error, invalid role " ++ role)) ∧
      GoMap.lookup acl' tablePattern = some g' ∧
      (∀ P, P ≠ tablePattern → GoMap.lookup acl' P = GoMap.lookup acl P) := by
  induction am1 generalizing acl g with
  | nil =>
    refine ⟨acl, g, ?_, h, fun _ _ => rfl⟩
    have hfalse : (RoleByName lib role).2 = false := by
      unfold resolves at hbad
      simpa using hbad
    rw [List.nil_append, loadRoles]
    split
    · rfl
    · rename_i r hf
      rw [hf] at hfalse
      simp at hfalse
  | cons e am1 ih =>
    obtain ⟨role1, users1⟩ := e
    have hrole : resolves lib role1 := hres (role1, users1) (List.mem_cons_self _ _)
    have hrest : ∀ f ∈ am1, resolves lib f.1 := fun f hf => hres f (List.mem_cons_of_mem _ hf)
    obtain ⟨acl1, g1, hl1, hg1, _, ho1⟩ :=
      loadUsers_spec tablePattern (RoleByName lib role1).1 (Split users1 ',') acl g h
    obtain ⟨acl', g', hl, hg, ho⟩ := ih acl1 g1 hg1 hrest
    have hpair : RoleByName lib role1 = ((RoleByName lib role1).1, true) := by
      unfold resolves at hrole
      rw [← hrole]
    refine ⟨acl', g', ?_, hg, ?_⟩
    · rw [List.cons_append, loadRoles]
      split
      · rename_i hf
        rw [hpair] at hf
        simp at hf
      · rename_i r hf
        rw [hpair] at hf
        have hr : (RoleByName lib role1).1 = r := by
          have := congrArg Prod.fst hf
          simpa using this
        rw [← hr, hl1]
        exact hl
    · intro P hP
      rw [ho P hP, ho1 P hP]

theorem ensurePattern_spec (acl : ACL) (tablePattern : String) :
    ∃ g0, GoMap.lookup (ensurePattern acl tablePattern) tablePattern = some g0 ∧
      (∀ u, GoMap.lookup g0 u = grantOf acl tablePattern u) ∧
      (∀ P, P ≠ tablePattern →
        GoMap.lookup (ensurePattern acl tablePattern) P = GoMap.lookup acl P) ∧
      (∀ g, GoMap.lookup acl tablePattern = some g → ensurePattern acl tablePattern = acl) ∧
      (GoMap.lookup acl tablePattern = none → g0 = []) := by
  unfold ensurePattern grantOf
  cases h : GoMap.lookup acl tablePattern with
  | none =>
    refine ⟨[], GoMap.lookup_insert_self _ _ _, fun u => rfl, ?_, ?_, fun _ => rfl⟩
    · intro P hP
      exact GoMap.lookup_insert_ne _ _ _ _ hP
    · intro g hg
      cases hg
  | some g =>
    refine ⟨g, h, fun u => rfl, fun _ _ => rfl, fun _ _ => rfl, ?_⟩
    intro hn
    cases hn

theorem loadPatterns_cons_ok (lib : Stdlib) (acl acl2 : ACL) (tablePattern : String)
    (accessMap : GoMap String) (rest : Contents)
    (hc : lib.CompileErr tablePattern = none)
    (hl : loadRoles lib tablePattern (ensurePattern acl tablePattern) accessMap =
      some (acl2, GoError.nil)) :
    loadPatterns lib acl ((tablePattern, accessMap) :: rest) = loadPatterns lib acl2 rest := by
  simp only [loadPatterns, hc, hl]

theorem loadPatterns_cons_role_error (lib : Stdlib) (acl acl2 : ACL) (tablePattern : String)
    (accessMap : GoMap String) (rest : Contents) (text : String)
    (hc : lib.CompileErr tablePattern = none)
    (hl : loadRoles lib tablePattern (ensurePattern acl tablePattern) accessMap =
      some (acl2, GoError.mk text)) :
    loadPatterns lib acl ((tablePattern, accessMap) :: rest) =
      some (acl2, GoError.mk text) := by
  simp only [loadPatterns, hc, hl]

theorem loadPatterns_cons_compile_error (lib : Stdlib) (acl : ACL) (tablePattern : String)
    (accessMap : GoMap String) (rest : Contents) (e : String)
    (hc : lib.CompileErr tablePattern = some e) :
    loadPatterns lib acl ((tablePattern, accessMap) :: rest) =
      some (acl, GoError.mk ("regexp compile error " ++ tablePattern ++ ": " ++ e)) := by
  simp only [loadPatterns, hc]

theorem loadPatterns_ok (lib : Stdlib) (c : Contents) (acl : ACL)
    (hgood : ∀ e ∈ c, goodEntry lib e) :
    ∃ acl', loadPatterns lib acl c = some (acl', GoError.nil) ∧
      (∀ P, P ∉ GoMap.keys c → GoMap.lookup acl' P = GoMap.lookup acl P) ∧
      (∀ P u, (∃ r, listed lib c P u r ∧ grantOf acl' P u = some r) ∨
        ((∀ e ∈ c, e.1 = P → ¬ lists e.2 u) ∧ grantOf acl' P u = grantOf acl P u)) := by
  induction c generalizing acl with
  | nil =>
    refine ⟨acl, rfl, fun _ _ => rfl, fun P u => Or.inr ⟨?_, rfl⟩⟩
    simp
  | cons e c ih =>
    obtain ⟨p, am⟩ := e
    have hp : goodEntry lib (p, am) := hgood (p, am) (List.mem_cons_self _ _)
    have hrest : ∀ e ∈ c, goodEntry lib e := fun e he => hgood e (List.mem_cons_of_mem _ he)
    obtain ⟨g0, hg0, hu0, ho0, _, _⟩ := ensurePattern_spec acl p
    obtain ⟨acl2, g2, hl2, hg2, ho2, hu2⟩ :=
      loadRoles_ok lib p am (ensurePattern acl p) g0 hg0 hp.2
    obtain ⟨acl', hl, hkeys, hinv⟩ := ih acl2 hrest
    refine ⟨acl', ?_, ?_, ?_⟩
    · rw [loadPatterns_cons_ok lib acl acl2 p am c hp.1 hl2]
      exact hl
    · intro P hP
      simp only [GoMap.keys, List.map_cons, List.mem_cons, not_or] at hP
      rw [hkeys P hP.2, ho2 P hP.1, ho0 P hP.1]
    · intro P u
      rcases hinv P u with ⟨r, hlr, hr⟩ | ⟨hnl, hr⟩
      · left
        obtain ⟨q, hq, hqP, hqu⟩ := hlr
        exact ⟨r, ⟨q, List.mem_cons_of_mem _ hq, hqP, hqu⟩, hr⟩
      · by_cases hPp : P = p
        · subst hPp
          have h2 : grantOf acl2 P u = GoMap.lookup g2 u := by
            unfold grantOf
            rw [hg2]
          rw [h2] at hr
          rcases hu2 u with ⟨r, hlr, hr2⟩ | ⟨hnl2, hr2⟩
          · left
            refine ⟨r, ⟨(P, am), List.mem_cons_self _ _, rfl, hlr⟩, ?_⟩
            rw [hr, hr2]
          · right
            refine ⟨?_, ?_⟩
            · intro e he heP
              rcases List.mem_cons.mp he with rfl | he
              · exact hnl2
              · exact hnl e he heP
            · rw [hr, hr2, hu0 u]
        · right
          refine ⟨?_, ?_⟩
          · intro e he heP
            rcases List.mem_cons.mp he with rfl | he
            · exact absurd heP.symm hPp
            · exact hnl e he heP
          · rw [hr]
            unfold grantOf
            rw [ho2 P hPp, ho0 P hPp]

theorem loadPatterns_append (lib : Stdlib) (before rest : Contents) (acl acl1 : ACL)
    (hgood : ∀ e ∈ before, goodEntry lib e)
    (h : loadPatterns lib acl before = some (acl1, GoError.nil)) :
    loadPatterns lib acl (before ++ rest) = loadPatterns lib acl1 rest := by
  induction before generalizing acl with
  | nil =>
    simp only [loadPatterns, Option.some.injEq, Prod.mk.injEq, and_true] at h
    subst h
    rfl
  | cons e before ih =>
    obtain ⟨p, am⟩ := e
    have hp : goodEntry lib (p, am) := hgood (p, am) (List.mem_cons_self _ _)
    have hrest : ∀ e ∈ before, goodEntry lib e :=
      fun e he => hgood e (List.mem_cons_of_mem _ he)
    obtain ⟨g0, hg0, _, _, _, _⟩ := ensurePattern_spec acl p
    obtain ⟨acl2, g2, hl2, _, _, _⟩ :=
      loadRoles_ok lib p am (ensurePattern acl p) g0 hg0 hp.2
    rw [loadPatterns_cons_ok lib acl acl2 p am before hp.1 hl2] at h
    rw [List.cons_append, loadPatterns_cons_ok lib acl acl2 p am (before ++ rest) hp.1 hl2]
    exact ih acl2 hrest h

theorem keys_insert_of_lookup {V : Type} (m : GoMap V) (k : String) (v v0 : V)
    (h : GoMap.lookup m k = some v0) :
    GoMap.keys (GoMap.insert m k v) = GoMap.keys m := by
  induction m with
  | nil => simp [GoMap.lookup] at h
  | cons e m ih =>
    obtain ⟨k0, w⟩ := e
    by_cases h0 : k0 = k
    · simp [GoMap.insert, GoMap.keys, h0]
    · simp only [GoMap.lookup, h0, if_false] at h
      have := ih h
      simp only [GoMap.keys] at this
      simp [GoMap.insert, GoMap.keys, h0, this]

theorem setGrant_keys (acl acl' : ACL) (tablePattern u : String) (r : Role)
    (h : setGrant acl tablePattern u r = some acl') : GoMap.keys acl' = GoMap.keys acl := by
  unfold setGrant at h
  cases hl : GoMap.lookup acl tablePattern with
  | none => simp [hl] at h
  | some g =>
    simp only [hl, Option.some.injEq] at h
    subst h
    exact keys_insert_of_lookup acl tablePattern _ g hl

theorem loadUsers_keys (tablePattern : String) (r : Role) (us : List String)
    (acl acl' : ACL) (h : loadUsers tablePattern r acl us = some acl') :
    GoMap.keys acl' = GoMap.keys acl := by
  induction us generalizing acl with
  | nil =>
    simp only [loadUsers, Option.some.injEq] at h
    subst h
    rfl
  | cons u us ih =>
    rw [loadUsers] at h
    cases hs : setGrant acl tablePattern u r with
    | none => simp [hs] at h
    | some acl1 =>
      simp only [hs] at h
      rw [ih acl1 h, setGrant_keys acl acl1 tablePattern u r hs]

theorem loadRoles_keys (lib : Stdlib) (tablePattern : String) (am : GoMap String)
    (acl acl' : ACL) (err : GoError)
    (h : loadRoles lib tablePattern acl am = some (acl', err)) :
    GoMap.keys acl' = GoMap.keys acl := by
  induction am generalizing acl with
  | nil =>
    simp only [loadRoles, Option.some.injEq, Prod.mk.injEq] at h
    rw [← h.1]
  | cons e am ih =>
    obtain ⟨role, usersStr⟩ := e
    rw [loadRoles] at h
    split at h
    · simp only [Option.some.injEq, Prod.mk.injEq] at h
      rw [← h.1]
    · rename_i r hr
      cases hu : loadUsers tablePattern r acl (Split usersStr ',') with
      | none => simp [hu] at h
      | some acl1 =>
        simp only [hu] at h
        rw [ih acl1 h, loadUsers_keys tablePattern r _ acl acl1 hu]

theorem loadPatterns_fail_pattern (lib : Stdlib) (before : Contents) (P : String)
    (am : GoMap String) (after : Contents) (e : String) (acl : ACL)
    (hgood : ∀ x ∈ before, goodEntry lib x) (hP : lib.CompileErr P = some e) :
    ∃ acl1, loadPatterns lib acl (before ++ (P, am) :: after) =
        some (acl1, GoError.mk ("regexp compile error " ++ P ++ ": " ++ e)) ∧
      (∀ Q, Q ∉ GoMap.keys before → GoMap.lookup acl1 Q = GoMap.lookup acl Q) := by
  obtain ⟨acl1, hl, hkeys, _⟩ := loadPatterns_ok lib before acl hgood
  refine ⟨acl1, ?_, hkeys⟩
  rw [loadPatterns_append lib before _ acl acl1 hgood hl]
  exact loadPatterns_cons_compile_error lib acl1 P am after e hP

theorem loadPatterns_fail_role (lib : Stdlib) (before : Contents) (P : String)
    (am1 : GoMap String) (role usersStr : String) (am2 : GoMap String) (after : Contents)
    (acl : ACL) (hgood : ∀ x ∈ before, goodEntry lib x) (hP : lib.CompileErr P = none)
    (hres : ∀ f ∈ am1, resolves lib f.1) (hbad : ¬ resolves lib role) :
    ∃ acl2, loadPatterns lib acl (before ++ (P, am1 ++ (role, usersStr) :: am2) :: after) =
        some (acl2, GoError.mk ("parse error, invalid role " ++ role)) := by
  obtain ⟨acl1, hl, _, _⟩ := loadPatterns_ok lib before acl hgood
  obtain ⟨g0, hg0, _, _, _, _⟩ := ensurePattern_spec acl1 P
  obtain ⟨acl2, g2, hl2, _, _⟩ :=
    loadRoles_fail lib P am1 role usersStr am2 (ensurePattern acl1 P) g0 hg0 hres hbad
  refine ⟨acl2, ?_⟩
  rw [loadPatterns_append lib before _ acl acl1 hgood hl]
  exact loadPatterns_cons_role_error lib acl1 acl2 P _ after _ hP hl2

theorem loadPatterns_not_good (lib : Stdlib) (c : Contents) (acl : ACL)
    (hbad : ¬ ∀ x ∈ c, goodEntry lib x) :
    ∃ acl' text, loadPatterns lib acl c = some (acl', GoError.mk text) := by
  rcases first_failing (goodEntry lib) c with h | ⟨before, x, after, hc, hgood, hx⟩
  · exact absurd h hbad
  · obtain ⟨P, am⟩ := x
    subst hc
    cases hP : lib.CompileErr P with
    | some e =>
      obtain ⟨acl1, hl, _⟩ := loadPatterns_fail_pattern lib before P am after e acl hgood hP
      exact ⟨acl1, _, hl⟩
    | none =>
      rcases first_failing (fun f : String × String => resolves lib f.1) am with
        h | ⟨am1, f, am2, ham, hres, hf⟩
      · exact absurd ⟨hP, h⟩ hx
      · obtain ⟨role, usersStr⟩ := f
        subst ham
        obtain ⟨acl2, hl⟩ :=
          loadPatterns_fail_role lib before P am1 role usersStr am2 after acl hgood hP hres hf
        exact ⟨acl2, _, hl⟩

theorem loadPatterns_nil_good (lib : Stdlib) (c : Contents) (acl acl' : ACL)
    (h : loadPatterns lib acl c = some (acl', GoError.nil)) : ∀ x ∈ c, goodEntry lib x := by
  by_contra hbad
  obtain ⟨acl2, text, hl⟩ := loadPatterns_not_good lib c acl hbad
  rw [hl] at h
  simp at h

theorem load_single (lib : Stdlib) (P : String) (am : GoMap String) (acl' : ACL)
    (hload : Load lib [] (Except.ok [(P, am)]) = some (acl', GoError.nil)) :
    ∃ g, acl' = [(P, g)] ∧
      ∀ u, (∃ r, listsUnder lib am u r ∧ GoMap.lookup g u = some r) ∨
        (¬ lists am u ∧ GoMap.lookup g u = none) := by
  have hl : loadPatterns lib [] [(P, am)] = some (acl', GoError.nil) := hload
  have hgood : goodEntry lib (P, am) :=
    loadPatterns_nil_good lib _ [] acl' hl (P, am) (List.mem_cons_self _ _)
  have he : ensurePattern [] P = [(P, [])] := rfl
  obtain ⟨acl2, g2, hl2, hg2, _, hu2⟩ :=
    loadRoles_ok lib P am (ensurePattern [] P) [] (by rw [he]; simp [GoMap.lookup]) hgood.2
  have hk : GoMap.keys acl2 = [P] := by
    rw [loadRoles_keys lib P am _ acl2 _ hl2, he]
    rfl
  rw [loadPatterns_cons_ok lib [] acl2 P am [] hgood.1 hl2] at hl
  simp only [loadPatterns, Option.some.injEq, Prod.mk.injEq, and_true] at hl
  subst hl
  refine ⟨g2, ?_, ?_⟩
  · match acl2, hk, hg2 with
    | [(k, g)], hk, hg2 =>
      simp only [GoMap.keys, List.map_cons, List.map_nil, List.cons.injEq, and_true] at hk
      subst hk
      simp only [GoMap.lookup, if_true, Option.some.injEq] at hg2
      rw [hg2]
  · intro u
    rcases hu2 u with h | ⟨hn, h⟩
    · exact Or.inl h
    · exact Or.inr ⟨hn, by rw [h]; rfl⟩

end tableaccesschecker

end Vitess

/-! ## Theorems: grants recorded by `Load` and their effect on `Allow` -/

namespace Vitess

namespace tableaccesschecker

open PlanType

theorem Allow_matched_eq (lib : Stdlib) (P : String) (g : GoMap Role) (rest : ACL)
    (context : Context) (plan : ExecPlan)
    (hP : (MatchString lib P plan.TableName).1 = true) :
    Allow lib ((P, g) :: rest) context plan =
      if hasGrant g "*" (RoleByPlanType plan.PlanId) ∨
        hasGrant g context.GetUsername (RoleByPlanType plan.PlanId)
      then some GoError.nil
      else (Name (RoleByPlanType plan.PlanId)).map
        (fun roleName => GoError.mk (deniedText context.GetUsername roleName plan.TableName)) :=
  allowFrom_matched lib context plan _ P g rest hP

theorem hasGrant_of_lookup (g : GoMap Role) (u : String) (r minRole : Role)
    (h : GoMap.lookup g u = some r) : hasGrant g u minRole ↔ r ≥ minRole := by
  unfold hasGrant
  constructor
  · rintro ⟨role, hrole, hge⟩
    rw [h] at hrole
    cases hrole
    exact hge
  · intro hge
    exact ⟨r, h, hge⟩

theorem not_hasGrant_of_lookup_none (g : GoMap Role) (u : String) (minRole : Role)
    (h : GoMap.lookup g u = none) : ¬ hasGrant g u minRole := by
  rintro ⟨role, hrole, _⟩
  rw [h] at hrole
  cases hrole

/-- C4: a READER grant permits reads only.  After a successful `Load`, into
the empty store, of a configuration whose only pattern is `P` and whose access
map lists `u` under role names resolving to READER only and does not list "*",
`Allow` for principal `u` on a table matching `P` returns nil for every
read-classified plan and a non-nil error for every write-classified plan and
for PLAN_DDL. -/
theorem reader_grant_reads_only (lib : Stdlib) (P u : String) (accessMap : GoMap String)
    (acl' : ACL) (t : String)
    (hlisted : lists accessMap u)
    (honly : ∀ e ∈ accessMap, u ∈ Split e.2 ',' → (RoleByName lib e.1).1 = READER)
    (hstar : ¬ lists accessMap "*")
    (hload : Load lib [] (Except.ok [(P, accessMap)]) = some (acl', GoError.nil))
    (hmatch : (MatchString lib P t).1 = true) :
    (∀ pid ∈ [PLAN_PASS_SELECT, PLAN_PK_EQUAL, PLAN_PK_IN, PLAN_SELECT_SUBQUERY, PLAN_SET],
      Allow lib acl' ⟨u⟩ ⟨pid, t⟩ = some GoError.nil) ∧
    (∀ pid ∈ [PLAN_PASS_DML, PLAN_DML_PK, PLAN_DML_SUBQUERY, PLAN_INSERT_PK,
        PLAN_INSERT_SUBQUERY, PLAN_DDL],
      ∃ text, Allow lib acl' ⟨u⟩ ⟨pid, t⟩ = some (GoError.mk text)) := by
  obtain ⟨g, rfl, hg⟩ := load_single lib P accessMap acl' hload
  have hu : GoMap.lookup g u = some READER := by
    rcases hg u with ⟨r, ⟨e, he, heu, her⟩, hr⟩ | ⟨hn, _⟩
    · have h1 := honly e he heu
      rw [her] at h1
      rw [hr]
      exact congrArg some h1
    · exact absurd hlisted hn
  have hs : GoMap.lookup g "*" = none := by
    rcases hg "*" with ⟨r, ⟨e, he, heu, _⟩, _⟩ | ⟨_, hr⟩
    · exact absurd ⟨e, he, heu⟩ hstar
    · exact hr
  constructor
  · intro pid hpid
    have hR : RoleByPlanType pid = READER := by
      simp only [List.mem_cons, List.mem_singleton, List.not_mem_nil, or_false] at hpid
      rcases hpid with rfl | rfl | rfl | rfl | rfl <;> rfl
    rw [Allow_matched_eq lib P g [] ⟨u⟩ ⟨pid, t⟩ hmatch]
    have hgr : hasGrant g u (RoleByPlanType pid) := by
      rw [hasGrant_of_lookup g u READER _ hu, hR]
    rw [if_pos (Or.inr hgr)]
  · intro pid hpid
    have hR : RoleByPlanType pid = WRITER ∨ RoleByPlanType pid = ADMIN := by
      simp only [List.mem_cons, List.mem_singleton, List.not_mem_nil, or_false] at hpid
      rcases hpid with rfl | rfl | rfl | rfl | rfl | rfl
      · exact Or.inl rfl
      · exact Or.inl rfl
      · exact Or.inl rfl
      · exact Or.inl rfl
      · exact Or.inl rfl
      · exact Or.inr rfl
    rw [Allow_matched_eq lib P g [] ⟨u⟩ ⟨pid, t⟩ hmatch]
    have hn1 : ¬ hasGrant g "*" (RoleByPlanType pid) := not_hasGrant_of_lookup_none g _ _ hs
    have hn2 : ¬ hasGrant g u (RoleByPlanType pid) := by
      rw [hasGrant_of_lookup g u READER _ hu]
      rcases hR with hR | hR <;> rw [hR] <;> decide
    have hn : ¬ (hasGrant g "*" (RoleByPlanType pid) ∨ hasGrant g u (RoleByPlanType pid)) :=
      fun h => h.elim hn1 hn2
    simp only [Context.GetUsername, ExecPlan.PlanId, ExecPlan.TableName] at hn ⊢
    rw [if_neg hn, Name_eq]
    exact ⟨_, rfl⟩

/-- Instance of C4, after the repository's tests `TestAllowReaderSelect`,
`TestDenyReaderInsert` and `TestDenyReaderDDL`, with the pattern "table1". -/
theorem reader_grant_reads_only_witness :
    (∀ pid ∈ [PLAN_PASS_SELECT, PLAN_PK_EQUAL, PLAN_PK_IN, PLAN_SELECT_SUBQUERY, PLAN_SET],
      Allow literalLib [("table1", [("user1", READER), ("user3", WRITER)])]
        ⟨"user1"⟩ ⟨pid, "table1"⟩ = some GoError.nil) ∧
    (∀ pid ∈ [PLAN_PASS_DML, PLAN_DML_PK, PLAN_DML_SUBQUERY, PLAN_INSERT_PK,
        PLAN_INSERT_SUBQUERY, PLAN_DDL],
      ∃ text, Allow literalLib [("table1", [("user1", READER), ("user3", WRITER)])]
        ⟨"user1"⟩ ⟨pid, "table1"⟩ = some (GoError.mk text)) :=
  reader_grant_reads_only literalLib "table1" "user1"
    [("Reader", "user1"), ("WRITER", "user3")]
    [("table1", [("user1", READER), ("user3", WRITER)])] "table1"
    (by decide) (by decide) (by decide) (by decide) (by decide)

/-- C5, as the code has it: a wildcard grant applies to every principal.
After a successful `Load`, into the empty store, of a configuration whose only
pattern `P` lists "*" under role `r` and under no other role, `Allow` returns
nil for every principal, every table matching `P` and every plan whose required
role is at most `r`, also for a principal listed under `P` with a lower role. -/
theorem wildcard_grant_applies (lib : Stdlib) (P : String) (accessMap : GoMap String)
    (acl' : ACL) (t : String) (r : Role)
    (hlisted : listsUnder lib accessMap "*" r)
    (honly : ∀ e ∈ accessMap, "*" ∈ Split e.2 ',' → (RoleByName lib e.1).1 = r)
    (hload : Load lib [] (Except.ok [(P, accessMap)]) = some (acl', GoError.nil))
    (hmatch : (MatchString lib P t).1 = true) :
    ∀ (u : String) (pid : PlanType), RoleByPlanType pid ≤ r →
      Allow lib acl' ⟨u⟩ ⟨pid, t⟩ = some GoError.nil := by
  obtain ⟨g, rfl, hg⟩ := load_single lib P accessMap acl' hload
  have hs : GoMap.lookup g "*" = some r := by
    rcases hg "*" with ⟨r', ⟨e, he, heu, her⟩, hr⟩ | ⟨hn, _⟩
    · have h1 := honly e he heu
      rw [her] at h1
      rw [hr]
      exact congrArg some h1
    · obtain ⟨e, he, heu, _⟩ := hlisted
      exact absurd ⟨e, he, heu⟩ hn
  intro u pid hle
  rw [Allow_matched_eq lib P g [] ⟨u⟩ ⟨pid, t⟩ hmatch]
  have hgr : hasGrant g "*" (RoleByPlanType pid) :=
    (hasGrant_of_lookup g "*" r _ hs).mpr hle
  rw [if_pos (Or.inl hgr)]

/-- Instance of C5 as the code has it, after the repository's test
`TestAllUserWriteAccess`: READER for the user and WRITER for "*" allow that
user a PLAN_DML_SUBQUERY. -/
theorem wildcard_grant_applies_witness :
    Allow literalLib [("table1", [("user1", READER), ("*", WRITER)])]
      ⟨"user1"⟩ ⟨PLAN_DML_SUBQUERY, "table1"⟩ = some GoError.nil :=
  wildcard_grant_applies literalLib "table1" [("Reader", "user1"), ("WRITER", "*")]
    [("table1", [("user1", READER), ("*", WRITER)])] "table1" WRITER
    (by decide) (by decide) (by decide) (by decide) "user1" PLAN_DML_SUBQUERY (by decide)

/-- C5 as stated fails when "*" is listed under two roles: with the access map
ranged over as WRITER then READER, the successful `Load` leaves "*" with
READER, so although the pattern lists "*" under WRITER, a PLAN_DML_PK (which
requires WRITER) by "user1" on the matching table "table1" is denied. -/
theorem wildcard_grant_counterexample :
    listsUnder literalLib [("WRITER", "*"), ("READER", "*")] "*" WRITER ∧
    Load literalLib [] (Except.ok [("table1", [("WRITER", "*"), ("READER", "*")])]) =
      some ([("table1", [("*", READER)])], GoError.nil) ∧
    (MatchString literalLib "table1" "table1").1 = true ∧
    RoleByPlanType PLAN_DML_PK ≤ WRITER ∧
    Allow literalLib [("table1", [("*", READER)])] ⟨"user1"⟩ ⟨PLAN_DML_PK, "table1"⟩ =
      some (GoError.mk "user user1 has no WRITER access on table table1") := by
  refine ⟨by decide, by decide, by decide, by decide, by decide⟩

/-- C6: `Load` merges instead of replacing.  For every policy `S` and every
configuration whose patterns compile, whose role names resolve and which lists
no principal under two different roles of the same pattern, `Load` returns nil,
the resulting policy maps every pattern and principal listed in the
configuration to the role named there, and maps every other pattern and
principal as `S` did. -/
theorem load_merges (lib : Stdlib) (S : ACL) (c : Contents)
    (hgood : ∀ e ∈ c, goodEntry lib e) (hfun : noConflict lib c) :
    ∃ S', Load lib S (Except.ok c) = some (S', GoError.nil) ∧
      (∀ P u r, listed lib c P u r → grantOf S' P u = some r) ∧
      (∀ P u, (¬ ∃ r, listed lib c P u r) → grantOf S' P u = grantOf S P u) := by
  obtain ⟨S', hl, _, hinv⟩ := loadPatterns_ok lib c S hgood
  refine ⟨S', hl, ?_, ?_⟩
  · rintro P u r ⟨p, hp, hpP, e, he, heu, her⟩
    rcases hinv P u with ⟨r', ⟨q, hq, hqP, f, hf, hfu, hfr⟩, hr'⟩ | ⟨hnl, _⟩
    · have h1 := hfun p hp q hq (hpP.trans hqP.symm) e he f hf u heu hfu
      rw [her, hfr] at h1
      rw [hr']
      exact congrArg some h1.symm
    · exact absurd ⟨e, he, heu⟩ (hnl p hp hpP)
  · intro P u hn
    rcases hinv P u with ⟨r, hlr, _⟩ | ⟨_, hr⟩
    · exact absurd ⟨r, hlr⟩ hn
    · exact hr

/-- Instance of C6: a policy holding READER for "user1" under "table1" is
loaded with a configuration that lists "user3" under WRITER for "table1" and
"user1" and "*" under Reader for "tbl". -/
theorem load_merges_witness :
    ∃ S', Load literalLib [("table1", [("user1", READER)])]
        (Except.ok [("table1", [("WRITER", "user3")]), ("tbl", [("Reader", "user1,*")])]) =
        some (S', GoError.nil) ∧
      (∀ P u r, listed literalLib
          [("table1", [("WRITER", "user3")]), ("tbl", [("Reader", "user1,*")])] P u r →
        grantOf S' P u = some r) ∧
      (∀ P u, (¬ ∃ r, listed literalLib
          [("table1", [("WRITER", "user3")]), ("tbl", [("Reader", "user1,*")])] P u r) →
        grantOf S' P u = grantOf [("table1", [("user1", READER)])] P u) :=
  load_merges literalLib [("table1", [("user1", READER)])]
    [("table1", [("WRITER", "user3")]), ("tbl", [("Reader", "user1,*")])]
    (by decide) (by decide)

/-- C7: `Load` rejects an invalid table pattern.  For every policy `S` and
every parsed configuration holding a pattern that does not compile, `Load`
returns a non-nil error.  When such a pattern `P` is the one that stops the
call (the entries ranged over before it are processed without error), the
error text is "regexp compile error <P>: <compile error>" and the call records
nothing under `P`: the policy holds under `P` what `S` held, which is no entry
at all when the patterns of `S` compile. -/
theorem load_rejects_invalid_pattern (lib : Stdlib) (S : ACL) (c : Contents)
    (hbad : ∃ x ∈ c, lib.CompileErr x.1 ≠ none) :
    (∃ S' text, Load lib S (Except.ok c) = some (S', GoError.mk text)) ∧
    (∀ before P am after e, c = before ++ (P, am) :: after →
      (∀ x ∈ before, goodEntry lib x) → lib.CompileErr P = some e →
      ∃ S', Load lib S (Except.ok c) =
          some (S', GoError.mk ("regexp compile error " ++ P ++ ": " ++ e)) ∧
        GoMap.lookup S' P = GoMap.lookup S P ∧
        ((∀ k ∈ GoMap.keys S, lib.CompileErr k = none) →
          GoMap.lookup S' P = none ∧ ∀ u, grantOf S' P u = none)) := by
  constructor
  · apply loadPatterns_not_good lib c S
    intro hall
    obtain ⟨x, hx, hxc⟩ := hbad
    exact hxc (hall x hx).1
  · intro before P am after e hc hgood hP
    subst hc
    obtain ⟨S', hl, hkeys⟩ := loadPatterns_fail_pattern lib before P am after e S hgood hP
    have hnot : P ∉ GoMap.keys before := by
      intro hmem
      simp only [GoMap.keys, List.mem_map] at hmem
      obtain ⟨x, hx, hxP⟩ := hmem
      have h1 := (hgood x hx).1
      rw [hxP, hP] at h1
      cases h1
    refine ⟨S', hl, hkeys P hnot, ?_⟩
    intro hS
    have hPS : P ∉ GoMap.keys S := by
      intro hmem
      have h1 := hS P hmem
      rw [hP] at h1
      cases h1
    have hnone : GoMap.lookup S' P = none := by
      rw [hkeys P hnot]
      exact GoMap.lookup_eq_none_of_not_mem S P hPS
    refine ⟨hnone, fun u => ?_⟩
    unfold grantOf
    rw [hnone]

/-- Instance of C7, after the repository's test `TestInvalidRegex`: the
pattern "table(1" follows a valid entry, `Load` fails on it, and the policy
has no entry for it. -/
theorem load_rejects_invalid_pattern_witness :
    ∃ S', Load literalLib []
        (Except.ok [("table1", [("READER", "user1")]), ("table(1", [("READER", "user1")])]) =
        some (S', GoError.mk ("regexp compile error " ++ "table(1" ++ ": " ++
          "error parsing regexp")) ∧
      GoMap.lookup S' "table(1" = GoMap.lookup [] "table(1" ∧
      ((∀ k ∈ GoMap.keys ([] : ACL), literalLib.CompileErr k = none) →
        GoMap.lookup S' "table(1" = none ∧ ∀ u, grantOf S' "table(1" u = none) :=
  (load_rejects_invalid_pattern literalLib []
    [("table1", [("READER", "user1")]), ("table(1", [("READER", "user1")])]
    (by decide)).2 [("table1", [("READER", "user1")])] "table(1" [("READER", "user1")] []
    "error parsing regexp" rfl (by decide) (by decide)

/-- C8: `Load` rejects an unknown role name.  For every policy `S` and every
parsed configuration in which some pattern has a role key that `RoleByName`
does not resolve, `Load` returns a non-nil error.  When such a key `role` is
the one that stops the call (the entries ranged over before its pattern are
processed without error, its pattern compiles and the role keys ranged over
before it resolve), the error text is "parse error, invalid role <role>". -/
theorem load_rejects_unknown_role (lib : Stdlib) (S : ACL) (c : Contents)
    (hbad : ∃ x ∈ c, ∃ f ∈ x.2, ¬ resolves lib f.1) :
    (∃ S' text, Load lib S (Except.ok c) = some (S', GoError.mk text)) ∧
    (∀ before P am1 role usersStr am2 after,
      c = before ++ (P, am1 ++ (role, usersStr) :: am2) :: after →
      (∀ x ∈ before, goodEntry lib x) → lib.CompileErr P = none →
      (∀ f ∈ am1, resolves lib f.1) → ¬ resolves lib role →
      ∃ S', Load lib S (Except.ok c) =
        some (S', GoError.mk ("parse error, invalid role " ++ role))) := by
  constructor
  · apply loadPatterns_not_good lib c S
    intro hall
    obtain ⟨x, hx, f, hf, hfr⟩ := hbad
    exact hfr ((hall x hx).2 f hf)
  · intro before P am1 role usersStr am2 after hc hgood hP hres hrole
    subst hc
    exact loadPatterns_fail_role lib before P am1 role usersStr am2 after S hgood hP hres hrole

/-- Instance of C8, after the repository's test `TestInvalidRoleName`: the
role key "SOMEROLE" under the pattern "table1". -/
theorem load_rejects_unknown_role_witness :
    ∃ S', Load literalLib [] (Except.ok [("table1", [("SOMEROLE", "user1")])]) =
      some (S', GoError.mk ("parse error, invalid role " ++ "SOMEROLE")) :=
  (load_rejects_unknown_role literalLib [] [("table1", [("SOMEROLE", "user1")])]
    (by decide)).2 [] "table1" [] "SOMEROLE" "user1" [] [] rfl (by decide) (by decide)
    (by decide) (by decide)

end tableaccesschecker

end Vitess

/-! ## Theorems: the plan-to-role policy and the order of roles -/

namespace Vitess

namespace tableaccesschecker

open PlanType

theorem allowFrom_tableName (lib : Stdlib) (context : Context) (plan plan' : ExecPlan)
    (minRole : Role) (acl : ACL) (h : plan.TableName = plan'.TableName) :
    allowFrom lib context plan minRole acl = allowFrom lib context plan' minRole acl := by
  induction acl with
  | nil => rfl
  | cons e acl ih =>
    obtain ⟨p, g⟩ := e
    simp only [allowFrom, h, ih]

theorem hasGrant_mono (g : GoMap Role) (u : String) (r r' : Role) (hle : r' ≤ r)
    (h : hasGrant g u r) : hasGrant g u r' := by
  obtain ⟨role, hrole, hge⟩ := h
  exact ⟨role, hrole, le_trans hle hge⟩

theorem allowFrom_mono_nil (lib : Stdlib) (context : Context) (plan : ExecPlan)
    (r r' : Role) (acl : ACL) (hle : r' ≤ r)
    (h : allowFrom lib context plan r acl = some GoError.nil) :
    allowFrom lib context plan r' acl = some GoError.nil := by
  induction acl with
  | nil => rfl
  | cons e acl ih =>
    obtain ⟨p, g⟩ := e
    by_cases hp : (MatchString lib p plan.TableName).1 = true
    · rw [allowFrom_matched lib context plan _ p g acl hp] at h ⊢
      by_cases hc : hasGrant g "*" r ∨ hasGrant g context.GetUsername r
      · have hc' : hasGrant g "*" r' ∨ hasGrant g context.GetUsername r' :=
          hc.imp (hasGrant_mono g _ r r' hle) (hasGrant_mono g _ r r' hle)
        rw [if_pos hc']
      · rw [if_neg hc, Name_eq] at h
        simp at h
    · have hp' : (MatchString lib p plan.TableName).1 = false := by simpa using hp
      simp only [allowFrom, hp'] at h ⊢
      exact ih (by simpa using h)

theorem allowFrom_mono_err (lib : Stdlib) (context : Context) (plan : ExecPlan)
    (r r' : Role) (acl : ACL) (hle : r ≤ r')
    (h : ∃ text, allowFrom lib context plan r acl = some (GoError.mk text)) :
    ∃ text, allowFrom lib context plan r' acl = some (GoError.mk text) := by
  induction acl with
  | nil =>
    obtain ⟨text, h⟩ := h
    simp [allowFrom] at h
  | cons e acl ih =>
    obtain ⟨p, g⟩ := e
    by_cases hp : (MatchString lib p plan.TableName).1 = true
    · rw [allowFrom_matched lib context plan _ p g acl hp] at h ⊢
      by_cases hc : hasGrant g "*" r ∨ hasGrant g context.GetUsername r
      · obtain ⟨text, h⟩ := h
        rw [if_pos hc] at h
        simp at h
      · have hc' : ¬ (hasGrant g "*" r' ∨ hasGrant g context.GetUsername r') := by
          intro h'
          exact hc (h'.imp (hasGrant_mono g _ r' r hle) (hasGrant_mono g _ r' r hle))
        rw [if_neg hc', Name_eq]
        exact ⟨_, rfl⟩
    · have hp' : (MatchString lib p plan.TableName).1 = false := by simpa using hp
      simp only [allowFrom, hp'] at h ⊢
      exact ih (by simpa using h)

theorem RoleByPlanType_other (tag : Int) : RoleByPlanType (PlanType.other tag) = READER := rfl

theorem lookup_other (tag : Int) : roleByPlanType.lookup (PlanType.other tag) = none := rfl

theorem RoleByPlanType_le_ADMIN (pid : PlanType) : RoleByPlanType pid ≤ ADMIN := by
  cases pid with
  | other tag => rw [RoleByPlanType_other]; decide
  | _ => decide

theorem RoleByPlanType_valid (pid : PlanType) : validRole (RoleByPlanType pid) := by
  cases pid with
  | other tag => rw [RoleByPlanType_other]; exact Or.inl rfl
  | _ => decide

/-- C14: the plan-to-role policy and the order of roles.  READER < WRITER <
ADMIN strictly; `RoleByPlanType` returns READER for each read-only plan class,
WRITER for each mutating plan class and ADMIN for PLAN_DDL. -/
theorem plan_role_policy :
    READER < WRITER ∧ WRITER < ADMIN ∧
    (∀ pid ∈ [PLAN_PASS_SELECT, PLAN_PK_EQUAL, PLAN_PK_IN, PLAN_SELECT_SUBQUERY, PLAN_SET],
      RoleByPlanType pid = READER) ∧
    (∀ pid ∈ [PLAN_PASS_DML, PLAN_DML_PK, PLAN_DML_SUBQUERY, PLAN_INSERT_PK,
        PLAN_INSERT_SUBQUERY],
      RoleByPlanType pid = WRITER) ∧
    RoleByPlanType PLAN_DDL = ADMIN := by
  refine ⟨by decide, by decide, ?_, ?_, rfl⟩
  · intro pid hpid
    simp only [List.mem_cons, List.mem_singleton, List.not_mem_nil, or_false] at hpid
    rcases hpid with rfl | rfl | rfl | rfl | rfl <;> rfl
  · intro pid hpid
    simp only [List.mem_cons, List.mem_singleton, List.not_mem_nil, or_false] at hpid
    rcases hpid with rfl | rfl | rfl | rfl | rfl <;> rfl

/-- C19: `Allow` is monotone in the required role.  For a fixed policy in a
fixed iteration order, a fixed principal and a fixed table name: when `Allow`
returns nil for a plan requiring `R` it returns nil for every plan requiring
at most `R`, and when it returns an error for a plan requiring `R` it returns
an error for every plan requiring at least `R`; so whoever may run PLAN_DDL on
a table may run every plan class on it. -/
theorem allow_monotone (lib : Stdlib) (acl : ACL) (context : Context) (t : String)
    (pid pid' : PlanType) :
    (RoleByPlanType pid' ≤ RoleByPlanType pid →
      Allow lib acl context ⟨pid, t⟩ = some GoError.nil →
      Allow lib acl context ⟨pid', t⟩ = some GoError.nil) ∧
    (RoleByPlanType pid ≤ RoleByPlanType pid' →
      (∃ text, Allow lib acl context ⟨pid, t⟩ = some (GoError.mk text)) →
      ∃ text, Allow lib acl context ⟨pid', t⟩ = some (GoError.mk text)) ∧
    (Allow lib acl context ⟨PLAN_DDL, t⟩ = some GoError.nil →
      Allow lib acl context ⟨pid', t⟩ = some GoError.nil) := by
  have hcongr : ∀ r, allowFrom lib context ⟨pid', t⟩ r acl =
      allowFrom lib context ⟨pid, t⟩ r acl :=
    fun r => allowFrom_tableName lib context ⟨pid', t⟩ ⟨pid, t⟩ r acl rfl
  have hcongr2 : ∀ r, allowFrom lib context ⟨pid', t⟩ r acl =
      allowFrom lib context ⟨PLAN_DDL, t⟩ r acl :=
    fun r => allowFrom_tableName lib context ⟨pid', t⟩ ⟨PLAN_DDL, t⟩ r acl rfl
  refine ⟨?_, ?_, ?_⟩
  · intro hle h
    unfold Allow at h ⊢
    rw [hcongr]
    exact allowFrom_mono_nil lib context ⟨pid, t⟩ _ _ acl hle h
  · intro hle h
    unfold Allow at h ⊢
    simp only [hcongr]
    exact allowFrom_mono_err lib context ⟨pid, t⟩ _ _ acl hle h
  · intro h
    unfold Allow at h ⊢
    rw [hcongr2]
    refine allowFrom_mono_nil lib context ⟨PLAN_DDL, t⟩ _ _ acl ?_ h
    exact RoleByPlanType_le_ADMIN pid'

/-- Instance of C19: under a policy giving "user1" WRITER on "table1", the
allowed PLAN_DML_PK entails that PLAN_PK_IN is allowed. -/
theorem allow_monotone_witness :
    Allow literalLib [("table1", [("user1", WRITER)])] ⟨"user1"⟩ ⟨PLAN_PK_IN, "table1"⟩ =
      some GoError.nil :=
  (allow_monotone literalLib [("table1", [("user1", WRITER)])] ⟨"user1"⟩ "table1"
    PLAN_DML_PK PLAN_PK_IN).1 (by decide) (by decide)

/-- C20: role names round-trip.  For every role `r` among READER, WRITER and
ADMIN, `RoleByName` applied to the name of `r` returns `(r, true)`; whenever
`RoleByName s` returns `(r, true)`, the name of `r` is the upper-cased `s`; and
`NumRoles`, the value `RoleByName` returns on failure, has the empty name. -/
theorem role_names_round_trip (lib : Stdlib) :
    (∀ r, validRole r → ∃ n, Name r = some n ∧ RoleByName lib n = (r, true)) ∧
    (∀ s r, RoleByName lib s = (r, true) → Name r = some (ToUpper lib s)) ∧
    (∀ s, (RoleByName lib s).2 = false → (RoleByName lib s).1 = NumRoles) ∧
    Name NumRoles = some "" := by
  refine ⟨?_, ?_, ?_, rfl⟩
  · intro r hr
    rcases hr with rfl | rfl | rfl
    · exact ⟨"READER", rfl, rfl⟩
    · exact ⟨"WRITER", rfl, rfl⟩
    · exact ⟨"ADMIN", rfl, rfl⟩
  · intro s r h
    rw [RoleByName_eq] at h
    by_cases h1 : ToUpper lib s = "READER"
    · rw [if_pos h1] at h
      have hr : READER = r := congrArg Prod.fst h
      rw [← hr, h1]
      rfl
    · rw [if_neg h1] at h
      by_cases h2 : ToUpper lib s = "WRITER"
      · rw [if_pos h2] at h
        have hr : WRITER = r := congrArg Prod.fst h
        rw [← hr, h2]
        rfl
      · rw [if_neg h2] at h
        by_cases h3 : ToUpper lib s = "ADMIN"
        · rw [if_pos h3] at h
          have hr : ADMIN = r := congrArg Prod.fst h
          rw [← hr, h3]
          rfl
        · rw [if_neg h3] at h
          have hb : false = true := congrArg Prod.snd h
          cases hb
  · intro s h
    rw [RoleByName_eq] at h ⊢
    by_cases h1 : ToUpper lib s = "READER"
    · rw [if_pos h1] at h; cases h
    · rw [if_neg h1] at h ⊢
      by_cases h2 : ToUpper lib s = "WRITER"
      · rw [if_pos h2] at h; cases h
      · rw [if_neg h2] at h ⊢
        by_cases h3 : ToUpper lib s = "ADMIN"
        · rw [if_pos h3] at h; cases h
        · rw [if_neg h3]

/-- Instance of C20 at the role key "Reader" of the repository's tests: it
resolves to READER, whose name "READER" is the upper-cased key. -/
theorem role_names_round_trip_witness :
    Name READER = some (ToUpper literalLib "Reader") :=
  (role_names_round_trip literalLib).2.1 "Reader" READER (by decide)

end tableaccesschecker

end Vitess

/-! ## Theorems: unmapped plan tags and failing loads -/

namespace Vitess

namespace tableaccesschecker

open PlanType

/-- C11, as the code has it: an unmapped plan classification is read as
READER.  For every tag absent from `roleByPlanType` the lookup returns READER,
the zero value of `Role`, and no error; `Allow` gives a plan carrying such a
tag the verdict of a read-classified plan on the same table, and grants it, on
a table matched by a configured pattern, to a principal holding READER under
the first matching pattern. -/
theorem unmapped_plan_reads (lib : Stdlib) (acl : ACL) (context : Context) (t : String)
    (pid : PlanType) (h : roleByPlanType.lookup pid = none) :
    RoleByPlanType pid = READER ∧
    Allow lib acl context ⟨pid, t⟩ = Allow lib acl context ⟨PLAN_PASS_SELECT, t⟩ ∧
    (∀ before P g after, acl = before ++ (P, g) :: after →
      (∀ e ∈ before, (MatchString lib e.1 t).1 = false) →
      (MatchString lib P t).1 = true →
      GoMap.lookup g context.GetUsername = some READER →
      Allow lib acl context ⟨pid, t⟩ = some GoError.nil) := by
  have hR : RoleByPlanType pid = READER := by
    unfold RoleByPlanType
    rw [h]
    rfl
  refine ⟨hR, ?_, ?_⟩
  · unfold Allow
    simp only [hR]
    exact allowFrom_tableName lib context ⟨pid, t⟩ ⟨PLAN_PASS_SELECT, t⟩ _ acl rfl
  · intro before P g after hacl hbefore hP hg
    subst hacl
    unfold Allow
    rw [allowFrom_skip lib context ⟨pid, t⟩ _ before _ hbefore,
      allowFrom_matched lib context ⟨pid, t⟩ _ P g after hP]
    have hgr : hasGrant g context.GetUsername (RoleByPlanType pid) := by
      rw [hasGrant_of_lookup g _ READER _ hg, hR]
    rw [if_pos (Or.inr hgr)]

/-- Instance of C11 as the code has it, at the tag 11 that `roleByPlanType`
does not hold. -/
theorem unmapped_plan_reads_witness :
    RoleByPlanType (PlanType.other 11) = READER ∧
    Allow literalLib [("table1", [("user1", READER)])] ⟨"user1"⟩
        ⟨PlanType.other 11, "table1"⟩ =
      Allow literalLib [("table1", [("user1", READER)])] ⟨"user1"⟩
        ⟨PLAN_PASS_SELECT, "table1"⟩ :=
  ⟨(unmapped_plan_reads literalLib [("table1", [("user1", READER)])] ⟨"user1"⟩ "table1"
      (PlanType.other 11) (by decide)).1,
   (unmapped_plan_reads literalLib [("table1", [("user1", READER)])] ⟨"user1"⟩ "table1"
      (PlanType.other 11) (by decide)).2.1⟩

/-- C11 as stated fails: the tag 11 is absent from `roleByPlanType`, yet after
loading READER for "user1" under the pattern "table1", `Allow` grants a plan
carrying that tag on the matching table "table1" to "user1", whose only grant
is READER. -/
theorem unmapped_plan_counterexample :
    roleByPlanType.lookup (PlanType.other 11) = none ∧
    Load literalLib [] (Except.ok [("table1", [("READER", "user1")])]) =
      some ([("table1", [("user1", READER)])], GoError.nil) ∧
    (MatchString literalLib "table1" "table1").1 = true ∧
    Allow literalLib [("table1", [("user1", READER)])] ⟨"user1"⟩
      ⟨PlanType.other 11, "table1"⟩ = some GoError.nil := by
  refine ⟨by decide, by decide, by decide, by decide⟩

theorem loadRoles_cons_bad (lib : Stdlib) (P role usersStr : String) (rest : GoMap String)
    (acl : ACL) (hbad : ¬ resolves lib role) :
    loadRoles lib P acl ((role, usersStr) :: rest) =
      some (acl, GoError.mk ("parse error, invalid role " ++ role)) := by
  have hfalse : (RoleByName lib role).2 = false := by
    unfold resolves at hbad
    simpa using hbad
  rw [loadRoles]
  split
  · rfl
  · rename_i r hf
    rw [hf] at hfalse
    simp at hfalse

theorem loadRoles_reader_user1 (lib : Stdlib) (P : String) (rest : GoMap String) :
    loadRoles lib P [(P, [])] (("READER", "user1") :: rest) =
      loadRoles lib P [(P, [("user1", READER)])] rest := by
  have h1 : RoleByName lib "READER" = (READER, true) := rfl
  have h2 : Split "user1" ',' = ["user1"] := by decide
  rw [loadRoles]
  simp only [h1, h2, loadUsers, setGrant, GoMap.lookup, GoMap.insert, if_true]

theorem not_resolves_SOMEROLE (lib : Stdlib) : ¬ resolves lib "SOMEROLE" := by
  unfold resolves
  have h : RoleByName lib "SOMEROLE" = (NumRoles, false) := rfl
  rw [h]
  simp

/-- C15: a failing `Load` is not atomic.  Whenever some pattern `P` compiles,
there are a policy and a configuration for which `Load` returns a non-nil
error and yet leaves a policy different from the one before the call: the
grant of the role key ranged over before the unknown role stays recorded.  The
same happens to the entry ranged over before a pattern that does not compile. -/
theorem failing_load_not_atomic (lib : Stdlib) (P : String)
    (hP : lib.CompileErr P = none) :
    (∃ (S : ACL) (c : Contents) (S' : ACL) (text : String),
      Load lib S (Except.ok c) = some (S', GoError.mk text) ∧ S' ≠ S ∧
      grantOf S P "user1" = none ∧ grantOf S' P "user1" = some READER) ∧
    (∀ Q e am, lib.CompileErr Q = some e →
      Load lib [] (Except.ok [(P, [("READER", "user1")]), (Q, am)]) =
        some ([(P, [("user1", READER)])],
          GoError.mk ("regexp compile error " ++ Q ++ ": " ++ e))) := by
  have he : ensurePattern [] P = [(P, [])] := rfl
  constructor
  · refine ⟨[], [(P, [("READER", "user1"), ("SOMEROLE", "user2")])],
      [(P, [("user1", READER)])], "parse error, invalid role " ++ "SOMEROLE", ?_, ?_, rfl, ?_⟩
    · have hl : loadRoles lib P (ensurePattern [] P)
          [("READER", "user1"), ("SOMEROLE", "user2")] =
          some ([(P, [("user1", READER)])],
            GoError.mk ("parse error, invalid role " ++ "SOMEROLE")) := by
        rw [he, loadRoles_reader_user1,
          loadRoles_cons_bad lib P "SOMEROLE" "user2" [] _ (not_resolves_SOMEROLE lib)]
      exact loadPatterns_cons_role_error lib [] _ P _ [] _ hP hl
    · simp
    · simp [grantOf, GoMap.lookup]
  · intro Q e am hQ
    have hl : loadRoles lib P (ensurePattern [] P) [("READER", "user1")] =
        some ([(P, [("user1", READER)])], GoError.nil) := by
      rw [he, loadRoles_reader_user1]
      rfl
    show loadPatterns lib [] [(P, [("READER", "user1")]), (Q, am)] = _
    rw [loadPatterns_cons_ok lib [] _ P _ [(Q, am)] hP hl]
    exact loadPatterns_cons_compile_error lib _ Q am [] e hQ

/-- Instance of C15 with the pattern "table1" followed by the pattern
"table(1" of the repository's test `TestInvalidRegex`. -/
theorem failing_load_not_atomic_witness :
    Load literalLib [] (Except.ok [("table1", [("READER", "user1")]),
        ("table(1", [("READER", "user1")])]) =
      some ([("table1", [("user1", READER)])],
        GoError.mk ("regexp compile error " ++ "table(1" ++ ": " ++ "error parsing regexp")) :=
  (failing_load_not_atomic literalLib "table1" (by decide)).2 "table(1"
    "error parsing regexp" [("READER", "user1")] (by decide)

/-- C17: a `Load` that fails on an unknown role turns fail-open into deny-all
for the pattern being processed.  On the empty store, `Load` of a
configuration with the one pattern `P`, which compiles, and the one role key
`X`, which is no role name, returns an error and leaves `P` registered with an
empty grant map; afterwards `Allow` returns a non-nil error on every table
matching `P` for every principal and every plan, while the same request was
allowed on the empty store. -/
theorem failed_load_denies_all (lib : Stdlib) (P X u : String)
    (hP : lib.CompileErr P = none) (hX : ¬ resolves lib X) :
    Load lib [] (Except.ok [(P, [(X, u)])]) =
      some ([(P, [])], GoError.mk ("parse error, invalid role " ++ X)) ∧
    ∀ (context : Context) (plan : ExecPlan), (MatchString lib P plan.TableName).1 = true →
      (∃ text, Allow lib [(P, [])] context plan = some (GoError.mk text)) ∧
      Allow lib [] context plan = some GoError.nil := by
  have he : ensurePattern [] P = [(P, [])] := rfl
  constructor
  · have hl : loadRoles lib P (ensurePattern [] P) [(X, u)] =
        some ([(P, [])], GoError.mk ("parse error, invalid role " ++ X)) := by
      rw [he, loadRoles_cons_bad lib P X u [] _ hX]
    exact loadPatterns_cons_role_error lib [] _ P _ [] _ hP hl
  · intro context plan hmatch
    refine ⟨?_, rfl⟩
    rw [Allow_matched_eq lib P [] [] context plan hmatch]
    have hn : ¬ (hasGrant [] "*" (RoleByPlanType plan.PlanId) ∨
        hasGrant [] context.GetUsername (RoleByPlanType plan.PlanId)) := by
      rintro (h | h) <;> exact not_hasGrant_of_lookup_none [] _ _ rfl h
    rw [if_neg hn, Name_eq]
    exact ⟨_, rfl⟩

/-- Instance of C17, after the repository's test `TestInvalidRoleName`: the
configuration with the pattern "table1" and the role key "SOMEROLE". -/
theorem failed_load_denies_all_witness :
    Load literalLib [] (Except.ok [("table1", [("SOMEROLE", "user1")])]) =
      some ([("table1", [])], GoError.mk ("parse error, invalid role " ++ "SOMEROLE")) ∧
    ∀ (context : Context) (plan : ExecPlan),
      (MatchString literalLib "table1" plan.TableName).1 = true →
      (∃ text, Allow literalLib [("table1", [])] context plan = some (GoError.mk text)) ∧
      Allow literalLib [] context plan = some GoError.nil :=
  failed_load_denies_all literalLib "table1" "SOMEROLE" "user1" (by decide) (by decide)

end tableaccesschecker

end Vitess

/-! ## Theorems: the invariant of the policy -/

namespace Vitess

namespace GoMap

theorem mem_insert {V : Type} (m : GoMap V) (k : String) (v : V) (e : String × V)
    (h : e ∈ insert m k v) : e ∈ m ∨ e = (k, v) := by
  induction m with
  | nil =>
    simp only [insert, List.mem_singleton] at h
    exact Or.inr h
  | cons a m ih =>
    obtain ⟨k0, v0⟩ := a
    by_cases h0 : k0 = k
    · simp only [insert, h0, if_true, List.mem_cons] at h
      rcases h with h | h
      · exact Or.inr h
      · exact Or.inl (List.mem_cons_of_mem _ h)
    · simp only [insert, h0, if_false, List.mem_cons] at h
      rcases h with h | h
      · exact Or.inl (by rw [h]; exact List.mem_cons_self _ _)
      · rcases ih h with h | h
        · exact Or.inl (List.mem_cons_of_mem _ h)
        · exact Or.inr h

theorem mem_of_lookup {V : Type} (m : GoMap V) (k : String) (v : V)
    (h : lookup m k = some v) : (k, v) ∈ m := by
  induction m with
  | nil => simp [lookup] at h
  | cons a m ih =>
    obtain ⟨k0, v0⟩ := a
    by_cases h0 : k0 = k
    · simp only [lookup, h0, if_true, Option.some.injEq] at h
      rw [h0, h]
      exact List.mem_cons_self _ _
    · simp only [lookup, h0, if_false] at h
      exact List.mem_cons_of_mem _ (ih h)

end GoMap

namespace tableaccesschecker

theorem RoleByName_valid (lib : Stdlib) (s : String) (r : Role)
    (h : RoleByName lib s = (r, true)) : validRole r := by
  rw [RoleByName_eq] at h
  by_cases h1 : ToUpper lib s = "READER"
  · rw [if_pos h1] at h
    exact Or.inl (congrArg Prod.fst h).symm
  · rw [if_neg h1] at h
    by_cases h2 : ToUpper lib s = "WRITER"
    · rw [if_pos h2] at h
      exact Or.inr (Or.inl (congrArg Prod.fst h).symm)
    · rw [if_neg h2] at h
      by_cases h3 : ToUpper lib s = "ADMIN"
      · rw [if_pos h3] at h
        exact Or.inr (Or.inr (congrArg Prod.fst h).symm)
      · rw [if_neg h3] at h
        have hb : false = true := congrArg Prod.snd h
        cases hb

theorem setGrant_inv (lib : Stdlib) (S S' : ACL) (P u : String) (r : Role)
    (hinv : policyInv lib S) (hr : validRole r) (h : setGrant S P u r = some S') :
    policyInv lib S' := by
  unfold setGrant at h
  cases hl : GoMap.lookup S P with
  | none => simp [hl] at h
  | some g =>
    simp only [hl, Option.some.injEq] at h
    subst h
    have hmem : (P, g) ∈ S := GoMap.mem_of_lookup S P g hl
    intro e he
    rcases GoMap.mem_insert S P _ e he with he | he
    · exact hinv e he
    · subst he
      refine ⟨(hinv (P, g) hmem).1, ?_⟩
      intro f hf
      rcases GoMap.mem_insert g u r f hf with hf | hf
      · exact (hinv (P, g) hmem).2 f hf
      · rw [hf]
        exact hr

theorem loadUsers_inv (lib : Stdlib) (P : String) (r : Role) (us : List String)
    (S S' : ACL) (hinv : policyInv lib S) (hr : validRole r)
    (h : loadUsers P r S us = some S') : policyInv lib S' := by
  induction us generalizing S with
  | nil =>
    simp only [loadUsers, Option.some.injEq] at h
    subst h
    exact hinv
  | cons u us ih =>
    rw [loadUsers] at h
    cases hs : setGrant S P u r with
    | none => simp [hs] at h
    | some S1 =>
      simp only [hs] at h
      exact ih S1 (setGrant_inv lib S S1 P u r hinv hr hs) h

theorem loadRoles_inv (lib : Stdlib) (P : String) (am : GoMap String) (S S' : ACL)
    (err : GoError) (hinv : policyInv lib S)
    (h : loadRoles lib P S am = some (S', err)) : policyInv lib S' := by
  induction am generalizing S with
  | nil =>
    simp only [loadRoles, Option.some.injEq, Prod.mk.injEq] at h
    rw [← h.1]
    exact hinv
  | cons e am ih =>
    obtain ⟨role, usersStr⟩ := e
    rw [loadRoles] at h
    split at h
    · simp only [Option.some.injEq, Prod.mk.injEq] at h
      rw [← h.1]
      exact hinv
    · rename_i r hr
      cases hu : loadUsers P r S (Split usersStr ',') with
      | none => simp [hu] at h
      | some S1 =>
        simp only [hu] at h
        exact ih S1 (loadUsers_inv lib P r _ S S1 hinv (RoleByName_valid lib role r hr) hu) h

theorem ensurePattern_inv (lib : Stdlib) (S : ACL) (P : String)
    (hP : lib.CompileErr P = none) (hinv : policyInv lib S) :
    policyInv lib (ensurePattern S P) := by
  unfold ensurePattern
  cases hl : GoMap.lookup S P with
  | some g => exact hinv
  | none =>
    intro e he
    rcases GoMap.mem_insert S P [] e he with he | he
    · exact hinv e he
    · subst he
      exact ⟨hP, by simp⟩

theorem loadPatterns_inv (lib : Stdlib) (c : Contents) (S S' : ACL) (err : GoError)
    (hinv : policyInv lib S) (h : loadPatterns lib S c = some (S', err)) :
    policyInv lib S' := by
  induction c generalizing S with
  | nil =>
    simp only [loadPatterns, Option.some.injEq, Prod.mk.injEq] at h
    rw [← h.1]
    exact hinv
  | cons e c ih =>
    obtain ⟨P, am⟩ := e
    cases hP : lib.CompileErr P with
    | some t =>
      rw [loadPatterns_cons_compile_error lib S P am c t hP] at h
      simp only [Option.some.injEq, Prod.mk.injEq] at h
      rw [← h.1]
      exact hinv
    | none =>
      have hinv1 := ensurePattern_inv lib S P hP hinv
      cases hl : loadRoles lib P (ensurePattern S P) am with
      | none => simp [loadPatterns, hP, hl] at h
      | some res =>
        obtain ⟨S2, err2⟩ := res
        have hinv2 := loadRoles_inv lib P am _ S2 err2 hinv1 hl
        cases err2 with
        | nil =>
          rw [loadPatterns_cons_ok lib S S2 P am c hP hl] at h
          exact ih S2 hinv2 h
        | mk text =>
          rw [loadPatterns_cons_role_error lib S S2 P am c text hP hl] at h
          simp only [Option.some.injEq, Prod.mk.injEq] at h
          rw [← h.1]
          exact hinv2

theorem Load_inv (lib : Stdlib) (S S' : ACL) (parsed : Except String Contents)
    (err : GoError) (hinv : policyInv lib S) (h : Load lib S parsed = some (S', err)) :
    policyInv lib S' := by
  cases parsed with
  | error e =>
    simp only [Load, Option.some.injEq, Prod.mk.injEq] at h
    rw [← h.1]
    exact hinv
  | ok c => exact loadPatterns_inv lib c S S' err hinv h

theorem Load_total (lib : Stdlib) (S : ACL) (parsed : Except String Contents) :
    ∃ S' err, Load lib S parsed = some (S', err) := by
  cases parsed with
  | error e => exact ⟨S, GoError.mk e, rfl⟩
  | ok c =>
    by_cases hgood : ∀ x ∈ c, goodEntry lib x
    · obtain ⟨S', hl, _⟩ := loadPatterns_ok lib c S hgood
      exact ⟨S', GoError.nil, hl⟩
    · obtain ⟨S', text, hl⟩ := loadPatterns_not_good lib c S hgood
      exact ⟨S', GoError.mk text, hl⟩

theorem Reachable_inv (lib : Stdlib) (S : ACL) (h : Reachable lib S) : policyInv lib S := by
  induction h with
  | empty => intro e he; cases he
  | load S S' parsed err _ hl ih => exact Load_inv lib S S' parsed err ih hl

/-- C12: the invariant of the access policy.  In every policy state reachable
from the empty policy by `Load` calls, successful or failing and with
arbitrary inputs, every pattern key compiles as a regular expression and every
stored role is READER, WRITER or ADMIN; hence the error that `Allow` discards
from `regexp.MatchString` on a stored pattern is always nil.  Every `Load` on
such a state returns (it does not panic) and leaves a reachable state. -/
theorem policy_invariant (lib : Stdlib) (S : ACL) (h : Reachable lib S) :
    (∀ e ∈ S, lib.CompileErr e.1 = none) ∧
    (∀ e ∈ S, ∀ f ∈ e.2, f.2 = READER ∨ f.2 = WRITER ∨ f.2 = ADMIN) ∧
    (∀ e ∈ S, ∀ t, (MatchString lib e.1 t).2 = GoError.nil) ∧
    (∀ parsed, ∃ S' err, Load lib S parsed = some (S', err) ∧ Reachable lib S') := by
  have hinv := Reachable_inv lib S h
  refine ⟨fun e he => (hinv e he).1, fun e he f hf => (hinv e he).2 f hf, ?_, ?_⟩
  · intro e he t
    unfold MatchString
    rw [(hinv e he).1]
  · intro parsed
    obtain ⟨S', err, hl⟩ := Load_total lib S parsed
    exact ⟨S', err, hl, Reachable.load S S' parsed err h hl⟩

/-- Instance of C12: the state left by the failing `Load` of the pattern
"table1" with the role keys "READER" and "SOMEROLE" is reachable. -/
theorem policy_invariant_witness :
    (∀ e ∈ [("table1", [("user1", READER)])], literalLib.CompileErr e.1 = none) ∧
    (∀ e ∈ [("table1", [("user1", READER)])], ∀ f ∈ e.2,
      f.2 = READER ∨ f.2 = WRITER ∨ f.2 = ADMIN) ∧
    (∀ e ∈ [("table1", [("user1", READER)])], ∀ t,
      (MatchString literalLib e.1 t).2 = GoError.nil) ∧
    (∀ parsed, ∃ S' err,
      Load literalLib [("table1", [("user1", READER)])] parsed = some (S', err) ∧
      Reachable literalLib S') :=
  policy_invariant literalLib [("table1", [("user1", READER)])]
    (Reachable.load [] [("table1", [("user1", READER)])]
      (Except.ok [("table1", [("READER", "user1"), ("SOMEROLE", "user2")])])
      (GoError.mk "parse error, invalid role SOMEROLE") Reachable.empty (by decide))

end tableaccesschecker

end Vitess

/-! ## Theorems: iteration order and overlapping patterns -/

namespace Vitess

namespace tableaccesschecker

open PlanType

theorem allowFrom_head_matched (lib : Stdlib) (context : Context) (plan : ExecPlan)
    (r : Role) (e : String × GoMap Role) (rest : ACL)
    (hm : (MatchString lib e.1 plan.TableName).1 = true) :
    allowFrom lib context plan r (e :: rest) = allowFrom lib context plan r [e] := by
  obtain ⟨p, g⟩ := e
  rw [allowFrom_matched lib context plan r p g rest hm,
    allowFrom_matched lib context plan r p g [] hm]

theorem allowFrom_head_unmatched (lib : Stdlib) (context : Context) (plan : ExecPlan)
    (r : Role) (e : String × GoMap Role) (rest : ACL)
    (hm : (MatchString lib e.1 plan.TableName).1 = false) :
    allowFrom lib context plan r (e :: rest) = allowFrom lib context plan r rest := by
  obtain ⟨p, g⟩ := e
  simp only [allowFrom, hm]
  simp

theorem allowFrom_of_unique (lib : Stdlib) (context : Context) (plan : ExecPlan) (r : Role)
    (acl : ACL) (hwf : GoMap.WF acl)
    (huniq : ∀ p ∈ GoMap.keys acl, ∀ q ∈ GoMap.keys acl,
      (MatchString lib p plan.TableName).1 = true →
      (MatchString lib q plan.TableName).1 = true → p = q)
    (e : String × GoMap Role) (he : e ∈ acl)
    (hm : (MatchString lib e.1 plan.TableName).1 = true) :
    allowFrom lib context plan r acl = allowFrom lib context plan r [e] := by
  induction acl with
  | nil => cases he
  | cons a acl ih =>
    have hnodup : a.1 ∉ GoMap.keys acl ∧ GoMap.WF acl := by
      unfold GoMap.WF GoMap.keys at hwf ⊢
      simpa using hwf
    by_cases ha : (MatchString lib a.1 plan.TableName).1 = true
    · rw [allowFrom_head_matched lib context plan r a acl ha]
      rcases List.mem_cons.mp he with rfl | he'
      · rfl
      · have hkey : e.1 ∈ GoMap.keys acl := List.mem_map_of_mem Prod.fst he'
        have heq : a.1 = e.1 :=
          huniq a.1 (List.mem_cons_self _ _) e.1 (List.mem_cons_of_mem _ hkey) ha hm
        rw [heq] at hnodup
        exact absurd hkey hnodup.1
    · have ha' : (MatchString lib a.1 plan.TableName).1 = false := by simpa using ha
      rw [allowFrom_head_unmatched lib context plan r a acl ha']
      have he' : e ∈ acl := by
        rcases List.mem_cons.mp he with rfl | he'
        · exact absurd hm ha
        · exact he'
      apply ih hnodup.2 _ he'
      intro p hp q hq
      exact huniq p (List.mem_cons_of_mem _ hp) q (List.mem_cons_of_mem _ hq)

theorem allowFrom_perm_of_unique (lib : Stdlib) (context : Context) (plan : ExecPlan)
    (r : Role) (acl acl' : ACL) (hperm : acl.Perm acl') (hwf : GoMap.WF acl)
    (huniq : ∀ p ∈ GoMap.keys acl, ∀ q ∈ GoMap.keys acl,
      (MatchString lib p plan.TableName).1 = true →
      (MatchString lib q plan.TableName).1 = true → p = q) :
    allowFrom lib context plan r acl = allowFrom lib context plan r acl' := by
  have hkeys : (GoMap.keys acl).Perm (GoMap.keys acl') := hperm.map Prod.fst
  have hwf' : GoMap.WF acl' := by
    unfold GoMap.WF at hwf ⊢
    exact hkeys.nodup_iff.mp hwf
  have huniq' : ∀ p ∈ GoMap.keys acl', ∀ q ∈ GoMap.keys acl',
      (MatchString lib p plan.TableName).1 = true →
      (MatchString lib q plan.TableName).1 = true → p = q :=
    fun p hp q hq => huniq p (hkeys.mem_iff.mpr hp) q (hkeys.mem_iff.mpr hq)
  by_cases hex : ∃ e ∈ acl, (MatchString lib e.1 plan.TableName).1 = true
  · obtain ⟨e, he, hm⟩ := hex
    rw [allowFrom_of_unique lib context plan r acl hwf huniq e he hm,
      allowFrom_of_unique lib context plan r acl' hwf' huniq' e (hperm.mem_iff.mp he) hm]
  · have hnone : ∀ e ∈ acl, (MatchString lib e.1 plan.TableName).1 = false := by
      intro e he
      by_contra hm
      exact hex ⟨e, he, by simpa using hm⟩
    have hnone' : ∀ e ∈ acl', (MatchString lib e.1 plan.TableName).1 = false :=
      fun e he => hnone e (hperm.mem_iff.mpr he)
    have h1 := allowFrom_skip lib context plan r acl [] hnone
    have h2 := allowFrom_skip lib context plan r acl' [] hnone'
    rw [List.append_nil] at h1 h2
    rw [h1, h2]

/-- C16: overlapping patterns make the verdict depend on the iteration order.
Whenever two different patterns `P` and `Q` both match a table name, there are
a policy with exactly these two patterns and different grants, a principal and
a plan for which `Allow` returns nil under one iteration order and a non-nil
error under the other.  Conversely, when at most one pattern of the policy
matches the table name, `Allow` returns the same for every iteration order. -/
theorem overlapping_patterns_order (lib : Stdlib) :
    (∀ P Q t, P ≠ Q → (MatchString lib P t).1 = true → (MatchString lib Q t).1 = true →
      ∃ (acl acl' : ACL) (context : Context) (plan : ExecPlan),
        acl.Perm acl' ∧ GoMap.WF acl ∧ GoMap.keys acl = [P, Q] ∧ plan.TableName = t ∧
        Allow lib acl context plan = some GoError.nil ∧
        ∃ text, Allow lib acl' context plan = some (GoError.mk text)) ∧
    (∀ (acl acl' : ACL) (context : Context) (plan : ExecPlan),
      acl.Perm acl' → GoMap.WF acl →
      (∀ p ∈ GoMap.keys acl, ∀ q ∈ GoMap.keys acl,
        (MatchString lib p plan.TableName).1 = true →
        (MatchString lib q plan.TableName).1 = true → p = q) →
      Allow lib acl context plan = Allow lib acl' context plan) := by
  constructor
  · intro P Q t hne hP hQ
    refine ⟨[(P, [("*", ADMIN)]), (Q, [])], [(Q, []), (P, [("*", ADMIN)])], ⟨"user1"⟩,
      ⟨PLAN_PK_IN, t⟩, List.Perm.swap _ _ _, ?_, rfl, rfl, ?_, ?_⟩
    · unfold GoMap.WF GoMap.keys
      simp [hne]
    · rw [Allow_matched_eq lib P _ _ ⟨"user1"⟩ ⟨PLAN_PK_IN, t⟩ hP]
      have hg : hasGrant [("*", ADMIN)] "*" (RoleByPlanType PLAN_PK_IN) := by decide
      rw [if_pos (Or.inl hg)]
    · rw [Allow_matched_eq lib Q _ _ ⟨"user1"⟩ ⟨PLAN_PK_IN, t⟩ hQ]
      have hn : ¬ (hasGrant [] "*" (RoleByPlanType PLAN_PK_IN) ∨
          hasGrant [] "user1" (RoleByPlanType PLAN_PK_IN)) := by decide
      simp only [Context.GetUsername, ExecPlan.PlanId] at hn ⊢
      rw [if_neg hn, Name_eq]
      exact ⟨_, rfl⟩
  · intro acl acl' context plan hperm hwf huniq
    exact allowFrom_perm_of_unique lib context plan _ acl acl' hperm hwf huniq

/-- Instance of C16: the patterns "table" and "table1" both match the table
"table1"; with the grants of the two read in one order a PLAN_PK_IN by "user1"
is allowed, in the other order it is denied. -/
theorem overlapping_patterns_order_witness :
    ∃ (acl acl' : ACL) (context : Context) (plan : ExecPlan),
      acl.Perm acl' ∧ GoMap.WF acl ∧ GoMap.keys acl = ["table", "table1"] ∧
      plan.TableName = "table1" ∧
      Allow literalLib acl context plan = some GoError.nil ∧
      ∃ text, Allow literalLib acl' context plan = some (GoError.mk text) :=
  (overlapping_patterns_order literalLib).1 "table" "table1" "table1"
    (by decide) (by decide) (by decide)

end tableaccesschecker

end Vitess

/-! ## Theorems: unanchored matching -/

namespace Vitess

theorem containsRunes_iff (p t : List Char) : containsRunes p t = true ↔ p <:+: t := by
  induction t with
  | nil =>
    cases p with
    | nil => simp [containsRunes]
    | cons c cs => simp [containsRunes]
  | cons a t ih =>
    rw [containsRunes, Bool.or_eq_true, ih, List.infix_cons_iff, List.isPrefixOf_iff_prefix]

theorem literalLib_contract : literalContract literalLib := by
  intro p t hp
  constructor
  · have hall : (p.data.all (fun c => !metaRunes.contains c)) = true := by
      rw [List.all_eq_true]
      intro c hc
      have := hp c hc
      simpa using this
    show (if (p.data.all (fun c => !metaRunes.contains c)) = true then none
      else some "error parsing regexp") = none
    rw [if_pos hall]
  · exact containsRunes_iff p.data t.data

namespace tableaccesschecker

open PlanType

/-- C18: pattern matching is unanchored.  With the regular-expression package
behaving as documented on patterns without metacharacters, `Allow` treats such
a pattern `P` as matching the table name `T` exactly when `P` occurs in `T` as
a contiguous piece: it then judges the request by the grants of `P`, and
otherwise lets it through.  So with the sole pattern "table1" granting only
READER to "user1", a PLAN_DDL by any principal on the table "mytable10" is
denied, not allowed by the fail-open default. -/
theorem unanchored_matching (lib : Stdlib) (hlib : literalContract lib) :
    (∀ P T, literalPattern metaRunes P →
      ((MatchString lib P T).1 = true ↔ P.data <:+: T.data)) ∧
    (∀ P g (context : Context) (plan : ExecPlan), literalPattern metaRunes P →
      (P.data <:+: plan.TableName.data →
        Allow lib [(P, g)] context plan =
          if hasGrant g "*" (RoleByPlanType plan.PlanId) ∨
            hasGrant g context.GetUsername (RoleByPlanType plan.PlanId)
          then some GoError.nil
          else (Name (RoleByPlanType plan.PlanId)).map (fun roleName =>
            GoError.mk (deniedText context.GetUsername roleName plan.TableName))) ∧
      (¬ P.data <:+: plan.TableName.data →
        Allow lib [(P, g)] context plan = some GoError.nil)) ∧
    (∀ u, Allow lib [("table1", [("user1", READER)])] ⟨u⟩ ⟨PLAN_DDL, "mytable10"⟩ =
      some (GoError.mk
        ("user " ++ u ++ " has no " ++ "ADMIN" ++ " access on table " ++ "mytable10"))) := by
  have hmatch : ∀ P T, literalPattern metaRunes P →
      ((MatchString lib P T).1 = true ↔ P.data <:+: T.data) := by
    intro P T hP
    unfold MatchString
    rw [(hlib P T hP).1]
    exact (hlib P T hP).2
  refine ⟨hmatch, ?_, ?_⟩
  · intro P g context plan hP
    constructor
    · intro hin
      exact Allow_matched_eq lib P g [] context plan ((hmatch P _ hP).mpr hin)
    · intro hnot
      have hm : (MatchString lib P plan.TableName).1 = false := by
        by_contra hm
        exact hnot ((hmatch P _ hP).mp (by simpa using hm))
      unfold Allow
      rw [allowFrom_head_unmatched lib context plan _ (P, g) [] hm]
      rfl
  · intro u
    have hlit : literalPattern metaRunes "table1" := by decide
    have hin : "table1".data <:+: "mytable10".data := ⟨['m', 'y'], ['0'], rfl⟩
    rw [Allow_matched_eq lib "table1" _ [] ⟨u⟩ ⟨PLAN_DDL, "mytable10"⟩
      ((hmatch "table1" "mytable10" hlit).mpr hin)]
    have hs : ¬ hasGrant [("user1", READER)] "*" (RoleByPlanType PLAN_DDL) := by decide
    have hu : ¬ hasGrant [("user1", READER)] u (RoleByPlanType PLAN_DDL) := by
      rintro ⟨role, hrole, hge⟩
      by_cases h1 : "user1" = u
      · simp only [GoMap.lookup, h1, if_true, Option.some.injEq] at hrole
        rw [← hrole] at hge
        exact absurd hge (by decide)
      · simp [GoMap.lookup, h1] at hrole
    have hn : ¬ (hasGrant [("user1", READER)] "*" (RoleByPlanType PLAN_DDL) ∨
        hasGrant [("user1", READER)] u (RoleByPlanType PLAN_DDL)) := fun h => h.elim hs hu
    simp only [Context.GetUsername, ExecPlan.PlanId, ExecPlan.TableName] at hn ⊢
    rw [if_neg hn]
    rfl

/-- Instance of C18 with the stand-in library, which behaves on patterns
without metacharacters as the regular-expression package is documented to. -/
theorem unanchored_matching_witness :
    Allow literalLib [("table1", [("user1", READER)])] ⟨"user2"⟩ ⟨PLAN_DDL, "mytable10"⟩ =
      some (GoError.mk "user user2 has no ADMIN access on table mytable10") :=
  (unanchored_matching literalLib literalLib_contract).2.2 "user2"

end tableaccesschecker

end Vitess
